import Mathlib

/-!
Verification of the asyncmigrate change-set model and migration engine.

The Rust source is shallowly embedded: `ChangeSetVersionName`, `ChangeSet`
and `MigrationChangeSets` mirror the structs of `changeset.rs`; machine
`i32` versions are modelled as `Int` (parsing enforces the `i32` range);
Rust `Result` is `Except`, `Option` is `Option`, and a Rust panic
(`unwrap` on a failing value, slice index out of bounds) is the
`PResult.panicked` outcome.  String ordering in Rust is byte-wise
lexicographic on UTF-8, which coincides with code-point lexicographic
order, embedded here as `strLtb` on `String.data`.
-/

/-- Outcome of a Rust computation that may panic. -/
inductive PResult (α : Type) where
  | ok (val : α) : PResult α
  | panicked : PResult α
deriving DecidableEq

/-- `ChangeSetVersionName` from changeset.rs: a version (`i32`) and a name. -/
structure ChangeSetVersionName where
  version : Int
  name : String
deriving DecidableEq

/-- `ChangeSet` from changeset.rs: versioned name, mandatory up SQL, optional down SQL. -/
structure ChangeSet where
  name : ChangeSetVersionName
  up_sql : String
  down_sql : Option String
deriving DecidableEq

/-- `MigrationChangeSets` from changeset.rs: a group name and its ordered change sets. -/
structure MigrationChangeSets where
  group_name : String
  change_sets : List ChangeSet
deriving DecidableEq

/-- `MigrationErrorKind` from error.rs (the variants reachable from the
embedded code; static message strings become `String`). -/
inductive MigrationErrorKind where
  | IoError : MigrationErrorKind
  | Utf8Error : MigrationErrorKind
  | ParseIntError : MigrationErrorKind
  | PostgresError : MigrationErrorKind
  | InconsistentMigrationError (msg : String) (version : Int) : MigrationErrorKind
  | VersionMismatchError (localVersion dbVersion : Int) : MigrationErrorKind
  | OtherError (msg : String) : MigrationErrorKind
deriving DecidableEq

/-- Rust `str` ordering on the underlying character lists: byte-wise
lexicographic on UTF-8 equals code-point lexicographic order. -/
def strLtb : List Char → List Char → Bool
  | [], [] => false
  | [], _ :: _ => true
  | _ :: _, [] => false
  | a :: as, b :: bs =>
    if a < b then true
    else if b < a then false
    else strLtb as bs

/-- Derived `Ord` on `Option<String>` in Rust: `None` is less than `Some`. -/
def optStrLtb : Option String → Option String → Bool
  | none, none => false
  | none, some _ => true
  | some _, none => false
  | some a, some b => strLtb a.data b.data

/-- The derived `Ord` on `ChangeSetVersionName` (changeset.rs): field order
`version`, then `name`. -/
def ChangeSetVersionName.ltb (a b : ChangeSetVersionName) : Bool :=
  if a.version < b.version then true
  else if b.version < a.version then false
  else strLtb a.name.data b.name.data

/-- The derived `Ord` on `ChangeSet` (changeset.rs): field order
`name`, `up_sql`, `down_sql`. -/
def ChangeSet.ltb (a b : ChangeSet) : Bool :=
  if ChangeSetVersionName.ltb a.name b.name then true
  else if ChangeSetVersionName.ltb b.name a.name then false
  else if strLtb a.up_sql.data b.up_sql.data then true
  else if strLtb b.up_sql.data a.up_sql.data then false
  else optStrLtb a.down_sql b.down_sql

/-- `a <= b` for the derived `Ord` on `ChangeSet`. -/
def ChangeSet.leb (a b : ChangeSet) : Bool := !ChangeSet.ltb b a

/-- Stable insertion into a sorted list; `sortLe` below models Rust's
stable `sort()` (stable sorts agree extensionally for a total preorder). -/
def insertLe (le : α → α → Bool) (x : α) : List α → List α
  | [] => [x]
  | y :: ys => if le x y then x :: y :: ys else y :: insertLe le x ys

/-- Stable sort by the boolean `le`; models `Vec::sort` and `ORDER BY`. -/
def sortLe (le : α → α → Bool) : List α → List α
  | [] => []
  | x :: xs => insertLe le x (sortLe le xs)

/-- The Unicode ranges of general category Nd (decimal digit).  The Rust
regex crate's `\\d` is Unicode-aware by default and denotes exactly this
class, not only the ASCII digits. -/
def ndRanges : List (Nat × Nat) :=
  [(0x30, 0x39), (0x660, 0x669), (0x6F0, 0x6F9), (0x7C0, 0x7C9),
   (0x966, 0x96F), (0x9E6, 0x9EF), (0xA66, 0xA6F), (0xAE6, 0xAEF),
   (0xB66, 0xB6F), (0xBE6, 0xBEF), (0xC66, 0xC6F), (0xCE6, 0xCEF),
   (0xD66, 0xD6F), (0xDE6, 0xDEF), (0xE50, 0xE59), (0xED0, 0xED9),
   (0xF20, 0xF29), (0x1040, 0x1049), (0x1090, 0x1099), (0x17E0, 0x17E9),
   (0x1810, 0x1819), (0x1946, 0x194F), (0x19D0, 0x19D9), (0x1A80, 0x1A89),
   (0x1A90, 0x1A99), (0x1B50, 0x1B59), (0x1BB0, 0x1BB9), (0x1C40, 0x1C49),
   (0x1C50, 0x1C59), (0xA620, 0xA629), (0xA8D0, 0xA8D9), (0xA900, 0xA909),
   (0xA9D0, 0xA9D9), (0xA9F0, 0xA9F9), (0xAA50, 0xAA59), (0xABF0, 0xABF9),
   (0xFF10, 0xFF19), (0x104A0, 0x104A9), (0x10D30, 0x10D39),
   (0x11066, 0x1106F), (0x110F0, 0x110F9), (0x11136, 0x1113F),
   (0x111D0, 0x111D9), (0x112F0, 0x112F9), (0x11450, 0x11459),
   (0x114D0, 0x114D9), (0x11650, 0x11659), (0x116C0, 0x116C9),
   (0x11730, 0x11739), (0x118E0, 0x118E9), (0x11950, 0x11959),
   (0x11C50, 0x11C59), (0x11D50, 0x11D59), (0x11DA0, 0x11DA9),
   (0x11F50, 0x11F59), (0x16A60, 0x16A69), (0x16AC0, 0x16AC9),
   (0x16B50, 0x16B59), (0x1D7CE, 0x1D7FF), (0x1E140, 0x1E149),
   (0x1E2F0, 0x1E2F9), (0x1E4F0, 0x1E4F9), (0x1E950, 0x1E959),
   (0x1FBF0, 0x1FBF9)]

/-- Membership in the regex crate's `\\d` class: a Unicode decimal digit. -/
def isNd (c : Char) : Bool :=
  ndRanges.any (fun r => r.1 ≤ c.toNat && c.toNat ≤ r.2)

/-- Version/name capture of `UP_NAME` in changeset.rs, the regex
`^(\d+)__(.+)__up.sql$` (note: the dot before `sql` is UNESCAPED in the
source, hence matches any character except a newline; `.` in `(.+)` also
excludes newlines; `\d` is the Unicode decimal-digit class `isNd`).
Returns the captured (version digits, name).  The splits are forced: the
digit run is maximal (the next required character `_` is no Nd digit)
and the trailing `__up.sql` part has fixed length 8
anchored at the end, so a deterministic matcher is faithful;
`parse_classification` below proves it equivalent to the declarative
pattern.  `stripPre pat l` strips the exact prefix `pat` from `l`. -/
def stripPre (pat : List Char) (l : List Char) : Option (List Char) :=
  match pat, l with
  | [], l => some l
  | p :: ps, x :: xs => if x = p then stripPre ps xs else none
  | _ :: _, [] => none

/-- See `stripPre` above: capture of the source regex `UP_NAME`. -/
def upCaptures (s : String) : Option (List Char × List Char) :=
  let ds := s.data.takeWhile isNd
  if ds = [] then none
  else
    match stripPre ['_', '_'] (s.data.dropWhile isNd) with
    | none => none
    | some r =>
      match stripPre ['l', 'q', 's'] r.reverse with
      | none => none
      | some [] => none
      | some (c :: rest2) =>
        match stripPre ['p', 'u', '_', '_'] rest2 with
        | none => none
        | some nr =>
          if nr = [] ∨ '\n' ∈ nr ∨ c = '\n' then none else some (ds, nr.reverse)

/-- Version/name capture of `DOWN_NAME` in changeset.rs, the regex
`^(\d+)__(.*)__down.sql$` (unescaped dot, name may be empty). -/
def downCaptures (s : String) : Option (List Char × List Char) :=
  let ds := s.data.takeWhile isNd
  if ds = [] then none
  else
    match stripPre ['_', '_'] (s.data.dropWhile isNd) with
    | none => none
    | some r =>
      match stripPre ['l', 'q', 's'] r.reverse with
      | none => none
      | some [] => none
      | some (c :: rest2) =>
        match stripPre ['n', 'w', 'o', 'd', '_', '_'] rest2 with
        | none => none
        | some nr =>
          if '\n' ∈ nr ∨ c = '\n' then none else some (ds, nr.reverse)

/-- Rust `str::parse::<i32>` on a captured `\\d+` run: `i32::from_str`
accepts only ASCII digits, so a run containing any non-ASCII Unicode
digit is a parse error, as is a decimal value beyond the `i32` range. -/
def parseI32 (ds : List Char) : Option Int :=
  if ds.all Char.isDigit then
    let v : Nat := ds.foldl (fun acc c => acc * 10 + (c.toNat - 48)) 0
    if v ≤ 2147483647 then some (Int.ofNat v) else none
  else none

/-- `ParsedName` from changeset.rs. -/
inductive ParsedName where
  | up (name : ChangeSetVersionName) : ParsedName
  | down (name : ChangeSetVersionName) : ParsedName
deriving DecidableEq

/-- `ParsedName::parse` from changeset.rs: try `UP_NAME` first, then
`DOWN_NAME`; the version capture is parsed with `.parse().unwrap()`, so a
digit string exceeding `i32` makes the source PANIC (`PResult.panicked`). -/
def ParsedName.parse (s : String) : PResult (Option ParsedName) :=
  match upCaptures s with
  | some (ds, nm) =>
    match parseI32 ds with
    | some v => .ok (some (.up ⟨v, ⟨nm⟩⟩))
    | none => .panicked
  | none =>
    match downCaptures s with
    | some (ds, nm) =>
      match parseI32 ds with
      | some v => .ok (some (.down ⟨v, ⟨nm⟩⟩))
      | none => .panicked
    | none => .ok none

/-- `Path::file_name` (simplified to the cases arising for file paths):
the last `/`-separated component, with `.` components dropped; `none` for
paths ending in `..` or with no component. -/
def basename? (path : String) : Option String :=
  match (path.data.splitOn '/').filter (fun c => ¬(c = [] ∨ c = ['.'])) with
  | [] => none
  | cs =>
    match cs.getLast? with
    | some last => if last = ['.', '.'] then none else some ⟨last⟩
    | none => none

/-- UTF-8 decoding as validated by Rust `str::from_utf8`: rejects invalid
leads, truncated or malformed continuations, overlong encodings,
surrogates and code points above U+10FFFF. -/
def utf8Decode? : List Nat → Option (List Char)
  | [] => some []
  | b :: rest =>
    if b < 0x80 then
      (utf8Decode? rest).map (fun cs => Char.ofNat b :: cs)
    else if b < 0xC2 then none
    else if b < 0xE0 then
      match rest with
      | b1 :: rest1 =>
        if 0x80 ≤ b1 ∧ b1 < 0xC0 then
          (utf8Decode? rest1).map
            (fun cs => Char.ofNat ((b - 0xC0) * 0x40 + (b1 - 0x80)) :: cs)
        else none
      | [] => none
    else if b < 0xF0 then
      match rest with
      | b1 :: b2 :: rest2 =>
        let lo1 : Nat := if b = 0xE0 then 0xA0 else 0x80
        let hi1 : Nat := if b = 0xED then 0xA0 else 0xC0
        if (lo1 ≤ b1 ∧ b1 < hi1) ∧ (0x80 ≤ b2 ∧ b2 < 0xC0) then
          (utf8Decode? rest2).map
            (fun cs =>
              Char.ofNat ((b - 0xE0) * 0x1000 + (b1 - 0x80) * 0x40 + (b2 - 0x80)) :: cs)
        else none
      | _ => none
    else if b < 0xF5 then
      match rest with
      | b1 :: b2 :: b3 :: rest3 =>
        let lo1 : Nat := if b = 0xF0 then 0x90 else 0x80
        let hi1 : Nat := if b = 0xF4 then 0x90 else 0xC0
        if (lo1 ≤ b1 ∧ b1 < hi1) ∧ (0x80 ≤ b2 ∧ b2 < 0xC0) ∧ (0x80 ≤ b3 ∧ b3 < 0xC0) then
          (utf8Decode? rest3).map
            (fun cs =>
              Char.ofNat
                ((b - 0xF0) * 0x40000 + (b1 - 0x80) * 0x1000 +
                  (b2 - 0x80) * 0x40 + (b3 - 0x80)) :: cs)
        else none
      | _ => none
    else none

/-- `HashMap::insert` keyed by version on an association-list model:
the new binding replaces any previous one for the same key (last write
wins, as in changeset.rs `load`). -/
def insertOverwrite (k : Int) (v : ChangeSetVersionName × String)
    (m : List (Int × ChangeSetVersionName × String)) :
    List (Int × ChangeSetVersionName × String) :=
  (k, v) :: m.filter (fun p => !(p.1 == k))

/-- The filename scan loop of `MigrationChangeSets::load` (changeset.rs):
classify each basename, fetch and UTF-8-decode the content of matching
files (an I/O failure becomes `IoError`; an invalid-UTF-8 content or an
oversized version PANICS, because the source unwraps), and build the two
version-keyed maps. -/
def loadGo (files : List (String × Except Unit (List Nat)))
    (ups downs : List (Int × ChangeSetVersionName × String)) :
    PResult (Except MigrationErrorKind
      (List (Int × ChangeSetVersionName × String) ×
        List (Int × ChangeSetVersionName × String))) :=
  match files with
  | [] => .ok (.ok (ups, downs))
  | (path, content) :: rest =>
    match basename? path with
    | none => loadGo rest ups downs
    | some fname =>
      match ParsedName.parse fname with
      | .panicked => .panicked
      | .ok none => loadGo rest ups downs
      | .ok (some (.up x)) =>
        match content with
        | .error _ => .ok (.error .IoError)
        | .ok bytes =>
          match utf8Decode? bytes with
          | none => .panicked
          | some cs => loadGo rest (insertOverwrite x.version (x, ⟨cs⟩) ups) downs
      | .ok (some (.down x)) =>
        match content with
        | .error _ => .ok (.error .IoError)
        | .ok bytes =>
          match utf8Decode? bytes with
          | none => .panicked
          | some cs => loadGo rest ups (insertOverwrite x.version (x, ⟨cs⟩) downs)

/-- The merge loop of `MigrationChangeSets::load`: every `up` entry
becomes one `ChangeSet`, removing (`HashMap::remove`) the same-version
`down` entry if present; leftover down-only entries are dropped. -/
def mergeGo : List (Int × ChangeSetVersionName × String) →
    List (Int × ChangeSetVersionName × String) → List ChangeSet
  | [], _ => []
  | (k, nm, usql) :: rest, downs =>
    match downs.find? (fun d => d.1 == k) with
    | some d =>
      ⟨nm, usql, some d.2.2⟩ :: mergeGo rest (downs.eraseP (fun x => x.1 == k))
    | none => ⟨nm, usql, none⟩ :: mergeGo rest downs

/-- Merge the two maps and sort (`change_sets.sort()`). -/
def loadMerge (ups downs : List (Int × ChangeSetVersionName × String)) :
    List ChangeSet :=
  sortLe ChangeSet.leb (mergeGo ups downs)

/-- `MigrationChangeSets::load` (changeset.rs): one pass over the
filenames, then merge and sort. -/
def MigrationChangeSets.load (name : String)
    (files : List (String × Except Unit (List Nat))) :
    PResult (Except MigrationErrorKind MigrationChangeSets) :=
  match loadGo files [] [] with
  | .panicked => .panicked
  | .ok (.error e) => .ok (.error e)
  | .ok (.ok (ups, downs)) => .ok (.ok ⟨name, loadMerge ups downs⟩)

/-- `MigrationChangeSets::subset` with a `..n` range (tokio_postgres.rs
calls `diff.subset(..count)`): Rust slicing `self.change_sets[..n]`
PANICS when `n` exceeds the length, otherwise clones the prefix. -/
def MigrationChangeSets.subsetTo (cs : MigrationChangeSets) (n : Nat) :
    PResult MigrationChangeSets :=
  if n ≤ cs.change_sets.length then .ok ⟨cs.group_name, cs.change_sets.take n⟩
  else .panicked

/-- The lock-step check loop of `MigrationChangeSets::calc_diff`
(changeset.rs lines 164-197): first failing check of the zipped pairs. -/
def calcDiffGo : List (ChangeSet × ChangeSet) → Option MigrationErrorKind
  | [] => none
  | (l, a) :: rest =>
    if l.name.version ≠ a.name.version then
      some (.VersionMismatchError l.name.version a.name.version)
    else if l.name ≠ a.name then
      some (.InconsistentMigrationError "Mismatch name" l.name.version)
    else if l.up_sql ≠ a.up_sql then
      some (.InconsistentMigrationError "Up SQL mismatch" l.name.version)
    else if l.down_sql ≠ a.down_sql then
      some (.InconsistentMigrationError "Down SQL mismatch" l.name.version)
    else calcDiffGo rest

/-- `MigrationChangeSets::calc_diff` (changeset.rs lines 160-211). -/
def MigrationChangeSets.calc_diff (self orig : MigrationChangeSets) :
    Except MigrationErrorKind MigrationChangeSets :=
  match calcDiffGo (self.change_sets.zip orig.change_sets) with
  | some e => .error e
  | none =>
    if h : self.change_sets.length < orig.change_sets.length then
      .error (.InconsistentMigrationError "Some migration is not found in local files"
        (orig.change_sets.get ⟨self.change_sets.length, h⟩).name.version)
    else .ok ⟨self.group_name, self.change_sets.drop orig.change_sets.length⟩

/-- One row of the `db_migration` tracking table (tokio_postgres.rs,
primary key `(group_name, version)`). -/
structure TrackingRow where
  group_name : String
  version : Int
  name : String
  up_sql : String
  down_sql : Option String
deriving DecidableEq

/-- The database state visible to the engine: the tracking table plus an
opaque schema component `σ` on which `batch_execute` acts. -/
structure Db (σ : Type) where
  schema : σ
  tracking : List TrackingRow
deriving DecidableEq

/-- A tracking row as read back into a `ChangeSet` (load_migration_set). -/
def rowToChangeSet (r : TrackingRow) : ChangeSet :=
  ⟨⟨r.version, r.name⟩, r.up_sql, r.down_sql⟩

/-- `load_migration_set` (tokio_postgres.rs): ensure the table exists
(a no-op on this model), then
`SELECT ... WHERE group_name = $1 ORDER BY version`. -/
def load_migration_set {σ : Type} (db : Db σ) (g : String) : MigrationChangeSets :=
  ⟨g, (sortLe (fun a b => a.version ≤ b.version)
        (db.tracking.filter (fun r => r.group_name == g))).map rowToChangeSet⟩

/-- `migrate_one` (tokio_postgres.rs): `batch_execute(up_sql)` against the
schema, then `INSERT` the tracking row; the insert fails on a duplicate
`(group_name, version)` primary key, and any failure is a `PostgresError`
that aborts the transaction. -/
def migrate_one {σ : Type} (exec : String → σ → Option σ) (g : String)
    (db : Db σ) (c : ChangeSet) : Except MigrationErrorKind (Db σ) :=
  match exec c.up_sql db.schema with
  | none => .error .PostgresError
  | some sch =>
    if db.tracking.any (fun r => r.group_name == g && r.version == c.name.version) then
      .error .PostgresError
    else
      .ok ⟨sch, db.tracking ++ [⟨g, c.name.version, c.name.name, c.up_sql, c.down_sql⟩]⟩

/-- The apply loop of `migrate_postgres`: run `migrate_one` for each
change set of the plan in order, stopping at the first failure. -/
def applyList {σ : Type} (exec : String → σ → Option σ) (g : String)
    (db : Db σ) : List ChangeSet → Except MigrationErrorKind (Db σ)
  | [] => .ok db
  | c :: rest =>
    match migrate_one exec g db c with
    | .error e => .error e
    | .ok db1 => applyList exec g db1 rest

/-- `migrate_postgres` (tokio_postgres.rs lines 49-65): load the applied
sets, diff, optionally take `subset(..count)` (which may panic), then
apply. -/
def migrate_postgres {σ : Type} (exec : String → σ → Option σ) (db : Db σ)
    (changesets : MigrationChangeSets) (count : Option Nat) :
    PResult (Except MigrationErrorKind (Db σ)) :=
  let applied := load_migration_set db changesets.group_name
  match changesets.calc_diff applied with
  | .error e => .ok (.error e)
  | .ok diff =>
    match count with
    | none => .ok (applyList exec changesets.group_name db diff.change_sets)
    | some n =>
      match diff.subsetTo n with
      | .panicked => .panicked
      | .ok sub => .ok (applyList exec changesets.group_name db sub.change_sets)

/-- `Migration::migrate` for `Client` (tokio_postgres.rs lines 8-17): one
transaction per call; on success the transaction commits, on error it is
left uncommitted so the visible database state is unchanged. -/
def Client.migrate {σ : Type} (exec : String → σ → Option σ) (db : Db σ)
    (changesets : MigrationChangeSets) (count : Option Nat) :
    PResult (Db σ × Option MigrationErrorKind) :=
  match migrate_postgres exec db changesets count with
  | .panicked => .panicked
  | .ok (.error e) => .ok (db, some e)
  | .ok (.ok db1) => .ok (db1, none)

/-- `rollback_one` (tokio_postgres.rs lines 189-205): the source first
issues `DELETE FROM db_migration VALUES WHERE group_name = $1 AND
version = $2`.  `VALUES` is a fully reserved keyword in PostgreSQL and
cannot stand as a bare table alias, so this statement is rejected by the
server at prepare time: `client.execute(...)?` always fails (surfaced as
a `PostgresError`) BEFORE any row is deleted and before the
`batch_execute(down_sql)` line is ever reached.  The faithful embedding
therefore returns the error unconditionally. -/
def rollback_one {σ : Type} (_exec : String → σ → Option σ) (_g : String)
    (_db : Db σ) (_c : ChangeSet) : Except MigrationErrorKind (Db σ) :=
  .error .PostgresError

/-- The revert loop of `rollback_postgres`. -/
def revList {σ : Type} (exec : String → σ → Option σ) (g : String)
    (db : Db σ) : List ChangeSet → Except MigrationErrorKind (Db σ)
  | [] => .ok db
  | c :: rest =>
    match rollback_one exec g db c with
    | .error e => .error e
    | .ok db1 => revList exec g db1 rest

/-- `rollback_postgres` (tokio_postgres.rs lines 67-81): `count` defaults
to the full applied length, over-large counts fail with
`OtherError("No change sets to revert")`, otherwise the most recent
`count` entries are reverted via `iter().rev().take(count)`. -/
def rollback_postgres {σ : Type} (exec : String → σ → Option σ) (db : Db σ)
    (g : String) (count : Option Nat) : Except MigrationErrorKind (Db σ) :=
  let applied := load_migration_set db g
  let n := count.getD applied.change_sets.length
  if applied.change_sets.length < n then
    .error (.OtherError "No change sets to revert")
  else revList exec g db (applied.change_sets.reverse.take n)

/-- `Migration::rollback` for `Client` (tokio_postgres.rs lines 27-36):
one transaction; commit on success, unchanged state on error. -/
def Client.rollback {σ : Type} (exec : String → σ → Option σ) (db : Db σ)
    (g : String) (count : Option Nat) : Db σ × Option MigrationErrorKind :=
  match rollback_postgres exec db g count with
  | .ok db1 => (db1, none)
  | .error e => (db, some e)

/-- `update_rollback_sql_one` (tokio_postgres.rs lines 152-166):
`UPDATE db_migration SET down_sql = $1 WHERE group_name = $2 AND version = $3`
with the LOCAL change set's down SQL; touches no other column and runs no
schema SQL. -/
def update_rollback_sql_one {σ : Type} (g : String) (db : Db σ)
    (c : ChangeSet) : Db σ :=
  ⟨db.schema,
    db.tracking.map (fun r =>
      if r.group_name == g && r.version == c.name.version then
        ⟨r.group_name, r.version, r.name, r.up_sql, c.down_sql⟩
      else r)⟩

/-- The lock-step loop of `update_rollback_sql_postgres`: abort on a
`(version, name)` divergence, update rows whose down SQL differs. -/
def updateGo {σ : Type} (g : String) (db : Db σ) :
    List (ChangeSet × ChangeSet) → Except MigrationErrorKind (Db σ)
  | [] => .ok db
  | (l, a) :: rest =>
    if l.name ≠ a.name then
      .error (.OtherError "version number or version name is not match")
    else if l.down_sql ≠ a.down_sql then
      updateGo g (update_rollback_sql_one g db l) rest
    else updateGo g db rest

/-- `update_rollback_sql_postgres` (tokio_postgres.rs lines 83-107). -/
def update_rollback_sql_postgres {σ : Type} (db : Db σ)
    (changesets : MigrationChangeSets) : Except MigrationErrorKind (Db σ) :=
  updateGo changesets.group_name db
    (changesets.change_sets.zip
      (load_migration_set db changesets.group_name).change_sets)

/-- `Migration::update_rollback_sql` for `Client` (tokio_postgres.rs
lines 18-26): one transaction; commit on success, unchanged on error. -/
def Client.update_rollback_sql {σ : Type} (db : Db σ)
    (changesets : MigrationChangeSets) : Db σ × Option MigrationErrorKind :=
  match update_rollback_sql_postgres db changesets with
  | .ok db1 => (db1, none)
  | .error e => (db, some e)

/-- Fold of `batch_execute` over the up scripts of a plan, in order. -/
def execAllUps {σ : Type} (exec : String → σ → Option σ) (s : σ) :
    List ChangeSet → Option σ
  | [] => some s
  | c :: rest =>
    match exec c.up_sql s with
    | none => none
    | some s1 => execAllUps exec s1 rest

/-- The tracking row inserted by `migrate_one` for a change set. -/
def mkRow (g : String) (c : ChangeSet) : TrackingRow :=
  ⟨g, c.name.version, c.name.name, c.up_sql, c.down_sql⟩

/-- Declarative rendering of the SOURCE up regex `^(\d+)__(.+)__up.sql$`
with its unescaped dot: some decomposition into a non-empty run of
Unicode decimal digits (`\d` = `isNd`), `__`, a non-empty newline-free
name, `__up`, one arbitrary non-newline character, and `sql`. -/
def UpPatCode (s : String) : Prop :=
  ∃ d n c, s.data = d ++ ['_', '_'] ++ n ++ ['_', '_', 'u', 'p'] ++ [c] ++ ['s', 'q', 'l'] ∧
    d ≠ [] ∧ (∀ x ∈ d, isNd x = true) ∧ n ≠ [] ∧ '\n' ∉ n ∧ c ≠ '\n'

/-- Declarative rendering of the SOURCE down regex `^(\d+)__(.*)__down.sql$`
(unescaped dot, Unicode `\d`, name may be empty). -/
def DownPatCode (s : String) : Prop :=
  ∃ d n c, s.data = d ++ ['_', '_'] ++ n ++ ['_', '_', 'd', 'o', 'w', 'n'] ++ [c] ++ ['s', 'q', 'l'] ∧
    d ≠ [] ∧ (∀ x ∈ d, isNd x = true) ∧ '\n' ∉ n ∧ c ≠ '\n'

/-- Declarative rendering of the regex CLAIMED by the spec,
`^(\d+)__(.+)__up\.sql$`, whose dot is escaped and therefore literal
(`\d` is the same Unicode decimal-digit class). -/
def UpPatClaimed (s : String) : Prop :=
  ∃ d n, s.data = d ++ ['_', '_'] ++ n ++ ['_', '_', 'u', 'p', '.', 's', 'q', 'l'] ∧
    d ≠ [] ∧ (∀ x ∈ d, isNd x = true) ∧ n ≠ [] ∧ '\n' ∉ n

/-! ### Order lemmas: the derived Rust `Ord` instances are total orders -/

theorem strLtb_iff_lex : ∀ a b : List Char, strLtb a b = true ↔ List.Lex (· < ·) a b
  | [], [] => by
    simp only [strLtb]
    exact iff_of_false (by simp) (List.Lex.not_nil_right _ _)
  | [], _ :: _ => by
    simp only [strLtb]
    exact iff_of_true trivial List.Lex.nil
  | _ :: _, [] => by
    simp only [strLtb]
    exact iff_of_false (by simp) (List.Lex.not_nil_right _ _)
  | a :: as, b :: bs => by
    by_cases h1 : a < b
    · simp only [strLtb, if_pos h1]
      exact iff_of_true trivial (List.Lex.rel h1)
    · by_cases h2 : b < a
      · simp only [strLtb, if_neg h1, if_pos h2]
        constructor
        · intro h; cases h
        · intro h
          cases h with
          | rel h3 => exact absurd h3 h1
          | cons h3 => exact absurd h2 (lt_irrefl _)
      · have hab : a = b := le_antisymm (not_lt.mp h2) (not_lt.mp h1)
        subst hab
        simp only [strLtb, if_neg h1, if_neg h2]
        rw [strLtb_iff_lex as bs]
        exact (List.Lex.cons_iff).symm

theorem strLtb_trans {a b c : List Char} (h1 : strLtb a b = true)
    (h2 : strLtb b c = true) : strLtb a c = true :=
  (strLtb_iff_lex a c).mpr
    (IsTrans.trans _ _ _ ((strLtb_iff_lex a b).mp h1) ((strLtb_iff_lex b c).mp h2))

theorem strLtb_asymm {a b : List Char} (h1 : strLtb a b = true)
    (h2 : strLtb b a = true) : False :=
  IsAsymm.asymm _ _ ((strLtb_iff_lex a b).mp h1) ((strLtb_iff_lex b a).mp h2)

theorem strLtb_trichot (a b : List Char) :
    strLtb a b = true ∨ strLtb b a = true ∨ a = b := by
  have h : List.Lex (· < ·) a b ∨ a = b ∨ List.Lex (· < ·) b a := trichotomous a b
  rcases h with h | h | h
  · exact Or.inl ((strLtb_iff_lex a b).mpr h)
  · exact Or.inr (Or.inr h)
  · exact Or.inr (Or.inl ((strLtb_iff_lex b a).mpr h))

theorem strLtb_irrefl (a : List Char) : strLtb a a = false := by
  by_contra h
  exact strLtb_asymm (a := a) (b := a) (by revert h; simp) (by revert h; simp)

theorem vnLtb_iff (a b : ChangeSetVersionName) :
    ChangeSetVersionName.ltb a b = true ↔
      (a.version < b.version ∨
        (a.version = b.version ∧ strLtb a.name.data b.name.data = true)) := by
  unfold ChangeSetVersionName.ltb
  split_ifs with h1 h2
  · exact iff_of_true rfl (Or.inl h1)
  · apply iff_of_false (by simp)
    rintro (h | ⟨he, _⟩) <;> omega
  · have he : a.version = b.version := by omega
    simp [he, lt_irrefl]

theorem vnLtb_asymm {a b : ChangeSetVersionName}
    (h1 : ChangeSetVersionName.ltb a b = true)
    (h2 : ChangeSetVersionName.ltb b a = true) : False := by
  rw [vnLtb_iff] at h1 h2
  rcases h1 with h1 | ⟨e1, s1⟩ <;> rcases h2 with h2 | ⟨e2, s2⟩
  · omega
  · omega
  · omega
  · exact strLtb_asymm s1 s2

theorem vnLtb_trans {a b c : ChangeSetVersionName}
    (h1 : ChangeSetVersionName.ltb a b = true)
    (h2 : ChangeSetVersionName.ltb b c = true) :
    ChangeSetVersionName.ltb a c = true := by
  rw [vnLtb_iff] at h1 h2 ⊢
  rcases h1 with h1 | ⟨e1, s1⟩ <;> rcases h2 with h2 | ⟨e2, s2⟩
  · exact Or.inl (by omega)
  · exact Or.inl (by omega)
  · exact Or.inl (by omega)
  · exact Or.inr ⟨by omega, strLtb_trans s1 s2⟩

theorem vnLtb_trichot (a b : ChangeSetVersionName) :
    ChangeSetVersionName.ltb a b = true ∨ ChangeSetVersionName.ltb b a = true ∨ a = b := by
  rcases lt_trichotomy a.version b.version with h | h | h
  · exact Or.inl ((vnLtb_iff a b).mpr (Or.inl h))
  · rcases strLtb_trichot a.name.data b.name.data with hs | hs | hs
    · exact Or.inl ((vnLtb_iff a b).mpr (Or.inr ⟨h, hs⟩))
    · exact Or.inr (Or.inl ((vnLtb_iff b a).mpr (Or.inr ⟨h.symm, hs⟩)))
    · refine Or.inr (Or.inr ?_)
      obtain ⟨av, an⟩ := a
      obtain ⟨bv, bn⟩ := b
      obtain ⟨and1⟩ := an
      obtain ⟨bnd1⟩ := bn
      simp only at h hs
      simp [h, hs]
  · exact Or.inr (Or.inl ((vnLtb_iff b a).mpr (Or.inl h)))

theorem vnLtb_irrefl (a : ChangeSetVersionName) :
    ChangeSetVersionName.ltb a a = false := by
  by_contra h
  rw [Bool.not_eq_false] at h
  exact vnLtb_asymm h h

theorem optLtb_asymm : ∀ {x y : Option String},
    optStrLtb x y = true → optStrLtb y x = true → False
  | none, none, h, _ => by simp [optStrLtb] at h
  | none, some _, _, h => by simp [optStrLtb] at h
  | some _, none, h, _ => by simp [optStrLtb] at h
  | some a, some b, h1, h2 => strLtb_asymm h1 h2

theorem optLtb_trans : ∀ {x y z : Option String},
    optStrLtb x y = true → optStrLtb y z = true → optStrLtb x z = true
  | none, none, _, h, _ => by simp [optStrLtb] at h
  | none, some _, none, _, h => by simp [optStrLtb] at h
  | none, some _, some _, _, _ => rfl
  | some _, none, _, h, _ => by simp [optStrLtb] at h
  | some _, some _, none, _, h => by simp [optStrLtb] at h
  | some a, some b, some c, h1, h2 => strLtb_trans h1 h2

theorem optLtb_trichot : ∀ x y : Option String,
    optStrLtb x y = true ∨ optStrLtb y x = true ∨ x = y
  | none, none => Or.inr (Or.inr rfl)
  | none, some _ => Or.inl rfl
  | some _, none => Or.inr (Or.inl rfl)
  | some a, some b => by
    rcases strLtb_trichot a.data b.data with hs | hs | hs
    · exact Or.inl hs
    · exact Or.inr (Or.inl hs)
    · refine Or.inr (Or.inr ?_)
      obtain ⟨ad⟩ := a
      obtain ⟨bd⟩ := b
      simp only at hs
      simp [hs]

theorem csLtb_iff (a b : ChangeSet) :
    ChangeSet.ltb a b = true ↔
      (ChangeSetVersionName.ltb a.name b.name = true ∨
        (a.name = b.name ∧ (strLtb a.up_sql.data b.up_sql.data = true ∨
          (a.up_sql = b.up_sql ∧ optStrLtb a.down_sql b.down_sql = true)))) := by
  unfold ChangeSet.ltb
  split_ifs with n1 n2 u1 u2
  · exact iff_of_true rfl (Or.inl n1)
  · apply iff_of_false (by simp)
    rintro (h | ⟨he, _⟩)
    · exact n1 h
    · rw [he] at n2
      rw [vnLtb_irrefl] at n2
      cases n2
  · have hn : a.name = b.name := by
      rcases vnLtb_trichot a.name b.name with h | h | h
      · exact absurd h n1
      · exact absurd h n2
      · exact h
    exact iff_of_true rfl (Or.inr ⟨hn, Or.inl u1⟩)
  · have hn : a.name = b.name := by
      rcases vnLtb_trichot a.name b.name with h | h | h
      · exact absurd h n1
      · exact absurd h n2
      · exact h
    apply iff_of_false (by simp)
    rintro (h | ⟨-, h | ⟨hu, -⟩⟩)
    · exact n1 h
    · exact u1 h
    · rw [hu] at u2
      rw [strLtb_irrefl] at u2
      cases u2
  · have hn : a.name = b.name := by
      rcases vnLtb_trichot a.name b.name with h | h | h
      · exact absurd h n1
      · exact absurd h n2
      · exact h
    have hu : a.up_sql = b.up_sql := by
      rcases strLtb_trichot a.up_sql.data b.up_sql.data with h | h | h
      · exact absurd h u1
      · exact absurd h u2
      · exact congrArg String.mk h
    simp [hn, hu, n1, u1, vnLtb_irrefl, strLtb_irrefl]

theorem csLtb_asymm {a b : ChangeSet} (h1 : ChangeSet.ltb a b = true)
    (h2 : ChangeSet.ltb b a = true) : False := by
  rw [csLtb_iff] at h1 h2
  rcases h1 with h1 | ⟨n1, h1⟩ <;> rcases h2 with h2 | ⟨n2, h2⟩
  · exact vnLtb_asymm h1 h2
  · rw [n2] at h1
    rw [vnLtb_irrefl] at h1
    cases h1
  · rw [n1] at h2
    rw [vnLtb_irrefl] at h2
    cases h2
  · rcases h1 with h1 | ⟨u1, h1⟩ <;> rcases h2 with h2 | ⟨u2, h2⟩
    · exact strLtb_asymm h1 h2
    · rw [u2] at h1
      rw [strLtb_irrefl] at h1
      cases h1
    · rw [u1] at h2
      rw [strLtb_irrefl] at h2
      cases h2
    · exact optLtb_asymm h1 h2

theorem csLtb_trans {a b c : ChangeSet} (h1 : ChangeSet.ltb a b = true)
    (h2 : ChangeSet.ltb b c = true) : ChangeSet.ltb a c = true := by
  rw [csLtb_iff] at h1 h2 ⊢
  rcases h1 with h1 | ⟨n1, h1⟩ <;> rcases h2 with h2 | ⟨n2, h2⟩
  · exact Or.inl (vnLtb_trans h1 h2)
  · rw [← n2]
    exact Or.inl h1
  · rw [n1]
    exact Or.inl h2
  · refine Or.inr ⟨n1.trans n2, ?_⟩
    rcases h1 with h1 | ⟨u1, h1⟩ <;> rcases h2 with h2 | ⟨u2, h2⟩
    · exact Or.inl (strLtb_trans h1 h2)
    · rw [← u2]
      exact Or.inl h1
    · rw [u1]
      exact Or.inl h2
    · exact Or.inr ⟨u1.trans u2, optLtb_trans h1 h2⟩

theorem csLtb_trichot (a b : ChangeSet) :
    ChangeSet.ltb a b = true ∨ ChangeSet.ltb b a = true ∨ a = b := by
  rcases vnLtb_trichot a.name b.name with hn | hn | hn
  · exact Or.inl ((csLtb_iff a b).mpr (Or.inl hn))
  · exact Or.inr (Or.inl ((csLtb_iff b a).mpr (Or.inl hn)))
  · rcases strLtb_trichot a.up_sql.data b.up_sql.data with hu | hu | hu
    · exact Or.inl ((csLtb_iff a b).mpr (Or.inr ⟨hn, Or.inl hu⟩))
    · exact Or.inr (Or.inl ((csLtb_iff b a).mpr (Or.inr ⟨hn.symm, Or.inl hu⟩)))
    · have hu2 : a.up_sql = b.up_sql := congrArg String.mk hu
      rcases optLtb_trichot a.down_sql b.down_sql with hd | hd | hd
      · exact Or.inl ((csLtb_iff a b).mpr (Or.inr ⟨hn, Or.inr ⟨hu2, hd⟩⟩))
      · exact Or.inr (Or.inl ((csLtb_iff b a).mpr (Or.inr ⟨hn.symm, Or.inr ⟨hu2.symm, hd⟩⟩)))
      · refine Or.inr (Or.inr ?_)
        obtain ⟨an, au, ad⟩ := a
        obtain ⟨bn, bu, bd⟩ := b
        simp only at hn hu2 hd
        simp [hn, hu2, hd]

theorem csLeb_trans {a b c : ChangeSet} (h1 : ChangeSet.leb a b = true)
    (h2 : ChangeSet.leb b c = true) : ChangeSet.leb a c = true := by
  unfold ChangeSet.leb at h1 h2 ⊢
  rw [Bool.not_eq_true'] at h1 h2 ⊢
  by_contra hca
  rw [Bool.not_eq_false] at hca
  rcases csLtb_trichot b c with h | h | h
  · exact absurd (csLtb_trans h hca) (by simp [h1])
  · exact absurd h (by simp [h2])
  · rw [h] at h1
    exact absurd hca (by simp [h1])

theorem csLeb_total (a b : ChangeSet) :
    ChangeSet.leb a b = true ∨ ChangeSet.leb b a = true := by
  unfold ChangeSet.leb
  rcases csLtb_trichot a b with h | h | h
  · left
    rw [Bool.not_eq_true']
    by_contra hab
    rw [Bool.not_eq_false] at hab
    exact csLtb_asymm h hab
  · right
    rw [Bool.not_eq_true']
    by_contra hab
    rw [Bool.not_eq_false] at hab
    exact csLtb_asymm hab h
  · left
    rw [h, Bool.not_eq_true']
    by_contra hab
    rw [Bool.not_eq_false] at hab
    exact csLtb_asymm hab hab

/-! ### Sorting lemmas for `sortLe` -/

theorem insertLe_perm (le : α → α → Bool) (x : α) :
    ∀ l : List α, (insertLe le x l).Perm (x :: l)
  | [] => List.Perm.refl _
  | y :: ys => by
    unfold insertLe
    split_ifs with h
    · exact List.Perm.refl _
    · exact (List.Perm.cons y (insertLe_perm le x ys)).trans (List.Perm.swap x y ys)

theorem sortLe_perm (le : α → α → Bool) : ∀ l : List α, (sortLe le l).Perm l
  | [] => List.Perm.refl _
  | x :: xs =>
    (insertLe_perm le x (sortLe le xs)).trans (List.Perm.cons x (sortLe_perm le xs))

theorem mem_insertLe {le : α → α → Bool} {x z : α} {l : List α}
    (h : z ∈ insertLe le x l) : z = x ∨ z ∈ l := by
  have := (insertLe_perm le x l).mem_iff.mp h
  simpa using this

theorem insertLe_pairwise {le : α → α → Bool}
    (htrans : ∀ a b c, le a b = true → le b c = true → le a c = true)
    (htot : ∀ a b, le a b = true ∨ le b a = true)
    (x : α) : ∀ l : List α, List.Pairwise (fun a b => le a b = true) l →
      List.Pairwise (fun a b => le a b = true) (insertLe le x l)
  | [], _ => List.pairwise_singleton _ _
  | y :: ys, h => by
    obtain ⟨hy, hys⟩ := List.pairwise_cons.mp h
    unfold insertLe
    split_ifs with hxy
    · refine List.pairwise_cons.mpr ⟨?_, h⟩
      intro z hz
      rcases List.mem_cons.mp hz with rfl | hz
      · exact hxy
      · exact htrans x y z hxy (hy z hz)
    · refine List.pairwise_cons.mpr ⟨?_, insertLe_pairwise htrans htot x ys hys⟩
      intro z hz
      rcases mem_insertLe hz with rfl | hz
      · rcases htot y z with h2 | h2
        · exact h2
        · exact absurd h2 hxy
      · exact hy z hz

theorem sortLe_pairwise {le : α → α → Bool}
    (htrans : ∀ a b c, le a b = true → le b c = true → le a c = true)
    (htot : ∀ a b, le a b = true ∨ le b a = true) :
    ∀ l : List α, List.Pairwise (fun a b => le a b = true) (sortLe le l)
  | [] => List.Pairwise.nil
  | x :: xs => insertLe_pairwise htrans htot x _ (sortLe_pairwise htrans htot xs)

/-! ### calc_diff lemmas -/

theorem calcDiffGo_self : ∀ ps : List (ChangeSet × ChangeSet),
    (∀ p ∈ ps, p.1 = p.2) → calcDiffGo ps = none
  | [], _ => rfl
  | (l, a) :: rest, h => by
    have hla : l = a := h (l, a) (List.mem_cons_self _ _)
    subst hla
    unfold calcDiffGo
    rw [if_neg (by simp), if_neg (by simp), if_neg (by simp), if_neg (by simp)]
    exact calcDiffGo_self rest (fun q hq => h q (List.mem_cons_of_mem _ hq))

theorem calcDiffGo_cons_agree (l : ChangeSet) (rest : List (ChangeSet × ChangeSet)) :
    calcDiffGo ((l, l) :: rest) = calcDiffGo rest := by
  unfold calcDiffGo
  rw [if_neg (by simp), if_neg (by simp), if_neg (by simp), if_neg (by simp)]
  cases rest with
  | nil => rfl
  | cons p t =>
    obtain ⟨l2, a2⟩ := p
    rfl

theorem calcDiffGo_cons_of_single {l a : ChangeSet}
    {rest : List (ChangeSet × ChangeSet)} {e : MigrationErrorKind}
    (h : calcDiffGo [(l, a)] = some e) :
    calcDiffGo ((l, a) :: rest) = some e := by
  unfold calcDiffGo at h ⊢
  split_ifs at h ⊢ <;> simp_all [calcDiffGo]

theorem calcDiffGo_first_error :
    ∀ (i : Nat) (l1 l2 : List ChangeSet) (hi1 : i < l1.length) (hi2 : i < l2.length)
      (e : MigrationErrorKind),
      (∀ j (hj : j < i),
        l1.get ⟨j, Nat.lt_trans hj hi1⟩ = l2.get ⟨j, Nat.lt_trans hj hi2⟩) →
      calcDiffGo [(l1.get ⟨i, hi1⟩, l2.get ⟨i, hi2⟩)] = some e →
      calcDiffGo (l1.zip l2) = some e
  | 0, x :: xs, y :: ys, _, _, e, _, hfail => by
    simp only [List.zip_cons_cons]
    exact calcDiffGo_cons_of_single hfail
  | i + 1, x :: xs, y :: ys, hi1, hi2, e, hagree, hfail => by
    have hxy : x = y := hagree 0 (Nat.succ_pos i)
    subst hxy
    simp only [List.zip_cons_cons]
    rw [calcDiffGo_cons_agree]
    exact calcDiffGo_first_error i xs ys
      (by simp only [List.length_cons] at hi1; omega)
      (by simp only [List.length_cons] at hi2; omega) e
      (fun j hj => hagree (j + 1) (by omega)) hfail

theorem zip_agree_of_get {l1 l2 : List ChangeSet}
    (h : ∀ i (hi1 : i < l1.length) (hi2 : i < l2.length),
      l1.get ⟨i, hi1⟩ = l2.get ⟨i, hi2⟩) :
    ∀ p ∈ l1.zip l2, p.1 = p.2 := by
  intro p hp
  obtain ⟨n, hn, hpe⟩ := List.mem_iff_getElem.mp hp
  have hlen := List.length_zip l1 l2
  have h1 : n < l1.length := by
    rw [hlen] at hn
    omega
  have h2 : n < l2.length := by
    rw [hlen] at hn
    omega
  rw [List.getElem_zip] at hpe
  subst hpe
  have := h n h1 h2
  simpa [List.get_eq_getElem] using this

/-! ### Claim theorems: ordering and diffing -/

/-- Claim C9: the derived comparison on `ChangeSetVersionName` is a total
order that compares by `version` first and consults the `name` (Rust's
byte-lexicographic string order, `strLtb` on the character data) only when
the versions are equal; in particular `V111 foo < V200 bar` and
`V100 bar < V100 foo`. -/
theorem versioned_name_total_order :
    (∀ a b : ChangeSetVersionName, a.version < b.version →
      ChangeSetVersionName.ltb a b = true)
    ∧ (∀ a b : ChangeSetVersionName, a.version = b.version →
      ChangeSetVersionName.ltb a b = strLtb a.name.data b.name.data)
    ∧ (∀ a b c : ChangeSetVersionName, ChangeSetVersionName.ltb a b = true →
      ChangeSetVersionName.ltb b c = true → ChangeSetVersionName.ltb a c = true)
    ∧ (∀ a b : ChangeSetVersionName, ChangeSetVersionName.ltb a b = true →
      ChangeSetVersionName.ltb b a = true → False)
    ∧ (∀ a b : ChangeSetVersionName, ChangeSetVersionName.ltb a b = true ∨
      ChangeSetVersionName.ltb b a = true ∨ a = b)
    ∧ ChangeSetVersionName.ltb ⟨111, "foo"⟩ ⟨200, "bar"⟩ = true
    ∧ ChangeSetVersionName.ltb ⟨100, "bar"⟩ ⟨100, "foo"⟩ = true := by
  refine ⟨?_, ?_, fun a b c h1 h2 => vnLtb_trans h1 h2,
    fun a b h1 h2 => vnLtb_asymm h1 h2, vnLtb_trichot, ?_, ?_⟩
  · intro a b h
    exact (vnLtb_iff a b).mpr (Or.inl h)
  · intro a b h
    unfold ChangeSetVersionName.ltb
    rw [if_neg (by omega), if_neg (by omega)]
  · decide
  · decide

/-- Witness for `versioned_name_total_order`: its first component applied
at a concrete pair, the hypothesis `1 < 2` discharged by evaluation. -/
theorem versioned_name_total_order_witness :
    (⟨1, "zz"⟩ : ChangeSetVersionName).version < (⟨2, "aa"⟩ : ChangeSetVersionName).version
    ∧ ChangeSetVersionName.ltb ⟨1, "zz"⟩ ⟨2, "aa"⟩ = true :=
  ⟨by decide, versioned_name_total_order.1 ⟨1, "zz"⟩ ⟨2, "aa"⟩ (by decide)⟩

/-- Claim C1: when the applied collection is a pointwise prefix of the
local one (every common index agrees on version, name, up and down SQL,
and the local collection is at least as long), `calc_diff` succeeds and
returns the local suffix after the applied length, in original order,
under the local collection's group name.  `calc_diff C C` and
`calc_diff C P` for a strict prefix `P` are instances. -/
theorem calc_diff_prefix_plan (lc ap : MigrationChangeSets)
    (hlen : ap.change_sets.length ≤ lc.change_sets.length)
    (hagree : ∀ i (hi : i < ap.change_sets.length),
      lc.change_sets.get ⟨i, Nat.lt_of_lt_of_le hi hlen⟩ = ap.change_sets.get ⟨i, hi⟩) :
    lc.calc_diff ap =
      .ok ⟨lc.group_name, lc.change_sets.drop ap.change_sets.length⟩ := by
  have hz : ∀ p ∈ lc.change_sets.zip ap.change_sets, p.1 = p.2 :=
    zip_agree_of_get (fun i hi1 hi2 => hagree i hi2)
  have hnlt : ¬ lc.change_sets.length < ap.change_sets.length := by omega
  unfold MigrationChangeSets.calc_diff
  rw [calcDiffGo_self _ hz, dif_neg hnlt]

/-- Witness for `calc_diff_prefix_plan`: a two-element local collection
diffed against its one-element prefix yields exactly the suffix. -/
theorem calc_diff_prefix_plan_witness :
    MigrationChangeSets.calc_diff
        ⟨"g", [⟨⟨1, "a"⟩, "u1", none⟩, ⟨⟨2, "b"⟩, "u2", some "d2"⟩]⟩
        ⟨"g", [⟨⟨1, "a"⟩, "u1", none⟩]⟩ =
      .ok ⟨"g", [⟨⟨2, "b"⟩, "u2", some "d2"⟩]⟩ :=
  calc_diff_prefix_plan
    ⟨"g", [⟨⟨1, "a"⟩, "u1", none⟩, ⟨⟨2, "b"⟩, "u2", some "d2"⟩]⟩
    ⟨"g", [⟨⟨1, "a"⟩, "u1", none⟩]⟩ (by decide) (by decide)

/-- Claim C2: `calc_diff` fails with `VersionMismatchError(local, applied)`
at the first lock-step index whose versions differ (taking precedence over
the name and SQL checks there); with an `InconsistentMigrationError`
carrying that index's version when the versions agree but name, up SQL or
down SQL differs; and, when every common index agrees but the local
collection is shorter, with an `InconsistentMigrationError` carrying the
version of the applied entry just beyond the local length. -/
theorem calc_diff_failure_modes :
    (∀ (lc ap : MigrationChangeSets) (i : Nat)
      (hi1 : i < lc.change_sets.length) (hi2 : i < ap.change_sets.length),
      (∀ j (hj : j < i), lc.change_sets.get ⟨j, Nat.lt_trans hj hi1⟩ =
        ap.change_sets.get ⟨j, Nat.lt_trans hj hi2⟩) →
      (lc.change_sets.get ⟨i, hi1⟩).name.version ≠
        (ap.change_sets.get ⟨i, hi2⟩).name.version →
      lc.calc_diff ap = .error (.VersionMismatchError
        (lc.change_sets.get ⟨i, hi1⟩).name.version
        (ap.change_sets.get ⟨i, hi2⟩).name.version))
    ∧ (∀ (lc ap : MigrationChangeSets) (i : Nat)
      (hi1 : i < lc.change_sets.length) (hi2 : i < ap.change_sets.length),
      (∀ j (hj : j < i), lc.change_sets.get ⟨j, Nat.lt_trans hj hi1⟩ =
        ap.change_sets.get ⟨j, Nat.lt_trans hj hi2⟩) →
      (lc.change_sets.get ⟨i, hi1⟩).name.version =
        (ap.change_sets.get ⟨i, hi2⟩).name.version →
      ((lc.change_sets.get ⟨i, hi1⟩).name ≠ (ap.change_sets.get ⟨i, hi2⟩).name ∨
        (lc.change_sets.get ⟨i, hi1⟩).up_sql ≠ (ap.change_sets.get ⟨i, hi2⟩).up_sql ∨
        (lc.change_sets.get ⟨i, hi1⟩).down_sql ≠ (ap.change_sets.get ⟨i, hi2⟩).down_sql) →
      ∃ msg, lc.calc_diff ap = .error (.InconsistentMigrationError msg
        (lc.change_sets.get ⟨i, hi1⟩).name.version))
    ∧ (∀ (lc ap : MigrationChangeSets)
      (hlt : lc.change_sets.length < ap.change_sets.length),
      (∀ j (hj : j < lc.change_sets.length),
        lc.change_sets.get ⟨j, hj⟩ = ap.change_sets.get ⟨j, Nat.lt_trans hj hlt⟩) →
      lc.calc_diff ap = .error (.InconsistentMigrationError
        "Some migration is not found in local files"
        (ap.change_sets.get ⟨lc.change_sets.length, hlt⟩).name.version)) := by
  refine ⟨?_, ?_, ?_⟩
  · intro lc ap i hi1 hi2 hagree hv
    have hgo := calcDiffGo_first_error i lc.change_sets ap.change_sets hi1 hi2 _ hagree
      (by unfold calcDiffGo; rw [if_pos hv])
    unfold MigrationChangeSets.calc_diff
    rw [hgo]
  · intro lc ap i hi1 hi2 hagree hveq hdiff
    by_cases hn : (lc.change_sets.get ⟨i, hi1⟩).name = (ap.change_sets.get ⟨i, hi2⟩).name
    · by_cases hu : (lc.change_sets.get ⟨i, hi1⟩).up_sql =
        (ap.change_sets.get ⟨i, hi2⟩).up_sql
      · have hd : (lc.change_sets.get ⟨i, hi1⟩).down_sql ≠
            (ap.change_sets.get ⟨i, hi2⟩).down_sql := by
          rcases hdiff with h | h | h
          · exact absurd hn h
          · exact absurd hu h
          · exact h
        refine ⟨"Down SQL mismatch", ?_⟩
        have hgo := calcDiffGo_first_error i lc.change_sets ap.change_sets hi1 hi2 _ hagree
          (by
            unfold calcDiffGo
            rw [if_neg (not_not_intro hveq), if_neg (not_not_intro hn),
              if_neg (not_not_intro hu), if_pos hd])
        unfold MigrationChangeSets.calc_diff
        rw [hgo]
      · refine ⟨"Up SQL mismatch", ?_⟩
        have hgo := calcDiffGo_first_error i lc.change_sets ap.change_sets hi1 hi2 _ hagree
          (by
            unfold calcDiffGo
            rw [if_neg (not_not_intro hveq), if_neg (not_not_intro hn), if_pos hu])
        unfold MigrationChangeSets.calc_diff
        rw [hgo]
    · refine ⟨"Mismatch name", ?_⟩
      have hgo := calcDiffGo_first_error i lc.change_sets ap.change_sets hi1 hi2 _ hagree
        (by
          unfold calcDiffGo
          rw [if_neg (not_not_intro hveq), if_pos hn])
      unfold MigrationChangeSets.calc_diff
      rw [hgo]
  · intro lc ap hlt hagree
    have hz : ∀ p ∈ lc.change_sets.zip ap.change_sets, p.1 = p.2 :=
      zip_agree_of_get (fun i h1 h2 => hagree i h1)
    unfold MigrationChangeSets.calc_diff
    rw [calcDiffGo_self _ hz, dif_pos hlt]

/-- Witness for `calc_diff_failure_modes`: its first and third components
applied at concrete collections, all hypotheses discharged by evaluation. -/
theorem calc_diff_failure_modes_witness :
    MigrationChangeSets.calc_diff ⟨"g", [⟨⟨1, "a"⟩, "u", none⟩]⟩
        ⟨"g", [⟨⟨2, "a"⟩, "u", none⟩]⟩ =
      .error (.VersionMismatchError 1 2)
    ∧ MigrationChangeSets.calc_diff ⟨"g", []⟩ ⟨"g", [⟨⟨7, "z"⟩, "u", none⟩]⟩ =
      .error (.InconsistentMigrationError "Some migration is not found in local files" 7) :=
  ⟨calc_diff_failure_modes.1 ⟨"g", [⟨⟨1, "a"⟩, "u", none⟩]⟩
      ⟨"g", [⟨⟨2, "a"⟩, "u", none⟩]⟩ 0 (by decide) (by decide)
      (fun j hj => absurd hj (Nat.not_lt_zero j)) (by decide),
    calc_diff_failure_modes.2.2 ⟨"g", []⟩ ⟨"g", [⟨⟨7, "z"⟩, "u", none⟩]⟩ (by decide)
      (fun j hj => absurd hj (Nat.not_lt_zero j))⟩

/-- Claim C10: `subset` with an upper bound beyond the collection length
panics (Rust slice indexing) rather than truncating or returning a typed
error, and consequently `migrate` with `Some(count)` for a `count`
exceeding the computed apply plan's length panics as well. -/
theorem subset_out_of_range_panics :
    (∀ (cs : MigrationChangeSets) (n : Nat), cs.change_sets.length < n →
      cs.subsetTo n = .panicked)
    ∧ (∀ (σ : Type) (exec : String → σ → Option σ) (db : Db σ)
      (cs : MigrationChangeSets) (n : Nat) (plan : MigrationChangeSets),
      cs.calc_diff (load_migration_set db cs.group_name) = .ok plan →
      plan.change_sets.length < n →
      Client.migrate exec db cs (some n) = .panicked) := by
  constructor
  · intro cs n h
    unfold MigrationChangeSets.subsetTo
    rw [if_neg (by omega)]
  · intro σ exec db cs n plan hdiff hlen
    have hsub : plan.subsetTo n = .panicked := by
      unfold MigrationChangeSets.subsetTo
      rw [if_neg (by omega)]
    unfold Client.migrate migrate_postgres
    simp only [hdiff, hsub]

/-- Witness for `subset_out_of_range_panics`: the empty collection with
upper bound 1. -/
theorem subset_out_of_range_panics_witness :
    (⟨"g", []⟩ : MigrationChangeSets).change_sets.length < 1
    ∧ MigrationChangeSets.subsetTo ⟨"g", []⟩ 1 = .panicked :=
  ⟨by decide, subset_out_of_range_panics.1 ⟨"g", []⟩ 1 (by decide)⟩

/-- Claim C6 is contradicted by the source (code bug evidence): the loader
unwraps `str::from_utf8` and `str::parse::<i32>`, so a file whose content
is the invalid UTF-8 byte `0xFF` makes `load` PANIC instead of returning a
typed encoding error, and a version-digit string exceeding the signed
32-bit range makes `ParsedName::parse` PANIC instead of surfacing a parse
error — even though error.rs defines `Utf8Error` and `ParseIntError`
conversions for exactly these failures. -/
theorem load_panics_on_bad_utf8_and_overflow :
    MigrationChangeSets.load "g" [("1__a__up.sql", .ok [255])] = .panicked
    ∧ ParsedName.parse "99999999999__a__up.sql" = .panicked := by
  constructor
  · rfl
  · rfl

/-! ### Filename classification: the deterministic matcher agrees with the
declarative regex patterns -/

theorem stripPre_eq_some : ∀ (pat l r : List Char),
    stripPre pat l = some r ↔ l = pat ++ r
  | [], l, r => by simp [stripPre]
  | p :: ps, [], r => by simp [stripPre]
  | p :: ps, x :: xs, r => by
    unfold stripPre
    split_ifs with h
    · subst h
      rw [stripPre_eq_some ps xs r]
      simp
    · simp [h]

theorem takeWhile_all_append {p : Char → Bool} :
    ∀ (d t : List Char) (y : Char), (∀ x ∈ d, p x = true) → p y = false →
      (d ++ y :: t).takeWhile p = d ∧ (d ++ y :: t).dropWhile p = y :: t
  | [], t, y, _, hy => by simp [List.takeWhile_cons, List.dropWhile_cons, hy]
  | a :: d, t, y, hd, hy => by
    have ha : p a = true := hd a (List.mem_cons_self _ _)
    have ih := takeWhile_all_append d t y (fun x hx => hd x (List.mem_cons_of_mem _ hx)) hy
    simp [List.takeWhile_cons, List.dropWhile_cons, ha, ih.1, ih.2]

theorem upCaptures_some {s : String} {d n : List Char}
    (h : upCaptures s = some (d, n)) :
    ∃ c, s.data = d ++ ['_', '_'] ++ n ++ ['_', '_', 'u', 'p'] ++ [c] ++ ['s', 'q', 'l'] ∧
      d ≠ [] ∧ (∀ x ∈ d, isNd x = true) ∧ n ≠ [] ∧ '\n' ∉ n ∧ c ≠ '\n' := by
  unfold upCaptures at h
  dsimp only at h
  split_ifs at h with hds
  cases h1 : stripPre ['_', '_'] (s.data.dropWhile isNd) with
  | none => rw [h1] at h; cases h
  | some r =>
    rw [h1] at h
    dsimp only at h
    cases h2 : stripPre ['l', 'q', 's'] r.reverse with
    | none => rw [h2] at h; cases h
    | some cr =>
      rw [h2] at h
      cases cr with
      | nil => cases h
      | cons c rest2 =>
        dsimp only at h
        cases h3 : stripPre ['p', 'u', '_', '_'] rest2 with
        | none => rw [h3] at h; cases h
        | some nr =>
          rw [h3] at h
          dsimp only at h
          split_ifs at h with hcheck
          push_neg at hcheck
          obtain ⟨hnr, hnl, hc⟩ := hcheck
          injection h with h
          injection h with hd hn
          subst hd
          subst hn
          refine ⟨c, ?_, hds, fun x hx => List.mem_takeWhile_imp hx, ?_, ?_, hc⟩
          · have hsplit : s.data =
                s.data.takeWhile isNd ++ s.data.dropWhile isNd :=
              (List.takeWhile_append_dropWhile _ _).symm
            rw [(stripPre_eq_some _ _ _).mp h1] at hsplit
            have hr : r = nr.reverse ++ ['_', '_', 'u', 'p'] ++ [c] ++ ['s', 'q', 'l'] := by
              have := congrArg List.reverse ((stripPre_eq_some _ _ _).mp h2)
              rw [List.reverse_reverse] at this
              rw [this, (stripPre_eq_some _ _ _).mp h3]
              simp
            rw [hr] at hsplit
            exact hsplit.trans (by simp)
          · simp [hnr]
          · simp [hnl]

theorem upCaptures_of_pat {s : String} {d n : List Char} {c : Char}
    (heq : s.data = d ++ ['_', '_'] ++ n ++ ['_', '_', 'u', 'p'] ++ [c] ++ ['s', 'q', 'l'])
    (hd : d ≠ []) (hdig : ∀ x ∈ d, isNd x = true) (hn : n ≠ []) (hnl : '\n' ∉ n)
    (hc : c ≠ '\n') : upCaptures s = some (d, n) := by
  have hform : s.data = d ++ '_' :: '_' :: (n ++ ['_', '_', 'u', 'p'] ++ [c] ++ ['s', 'q', 'l']) := by
    rw [heq]
    simp
  have hsplit := takeWhile_all_append (p := isNd) d
    ('_' :: (n ++ ['_', '_', 'u', 'p'] ++ [c] ++ ['s', 'q', 'l'])) '_' hdig (by decide)
  rw [← hform] at hsplit
  have hstrip1 : stripPre ['_', '_'] (s.data.dropWhile isNd) =
      some (n ++ ['_', '_', 'u', 'p'] ++ [c] ++ ['s', 'q', 'l']) :=
    (stripPre_eq_some _ _ _).mpr (by rw [hsplit.2]; rfl)
  have hrev : (n ++ ['_', '_', 'u', 'p'] ++ [c] ++ ['s', 'q', 'l']).reverse =
      'l' :: 'q' :: 's' :: c :: 'p' :: 'u' :: '_' :: '_' :: n.reverse := by
    simp
  have hstrip2 : stripPre ['l', 'q', 's']
      ((n ++ ['_', '_', 'u', 'p'] ++ [c] ++ ['s', 'q', 'l']).reverse) =
      some (c :: 'p' :: 'u' :: '_' :: '_' :: n.reverse) :=
    (stripPre_eq_some _ _ _).mpr (by rw [hrev]; rfl)
  have hstrip3 : stripPre ['p', 'u', '_', '_'] ('p' :: 'u' :: '_' :: '_' :: n.reverse) =
      some n.reverse :=
    (stripPre_eq_some _ _ _).mpr rfl
  unfold upCaptures
  rw [hsplit.1]
  rw [if_neg hd, hstrip1]
  dsimp only
  rw [hstrip2]
  dsimp only
  rw [hstrip3]
  dsimp only
  rw [if_neg (by
    push_neg
    refine ⟨by simp [hn], by simp [hnl], hc⟩)]
  simp

theorem downCaptures_some {s : String} {d n : List Char}
    (h : downCaptures s = some (d, n)) :
    ∃ c, s.data = d ++ ['_', '_'] ++ n ++ ['_', '_', 'd', 'o', 'w', 'n'] ++ [c] ++ ['s', 'q', 'l'] ∧
      d ≠ [] ∧ (∀ x ∈ d, isNd x = true) ∧ '\n' ∉ n ∧ c ≠ '\n' := by
  unfold downCaptures at h
  dsimp only at h
  split_ifs at h with hds
  cases h1 : stripPre ['_', '_'] (s.data.dropWhile isNd) with
  | none => rw [h1] at h; cases h
  | some r =>
    rw [h1] at h
    dsimp only at h
    cases h2 : stripPre ['l', 'q', 's'] r.reverse with
    | none => rw [h2] at h; cases h
    | some cr =>
      rw [h2] at h
      cases cr with
      | nil => cases h
      | cons c rest2 =>
        dsimp only at h
        cases h3 : stripPre ['n', 'w', 'o', 'd', '_', '_'] rest2 with
        | none => rw [h3] at h; cases h
        | some nr =>
          rw [h3] at h
          dsimp only at h
          split_ifs at h with hcheck
          push_neg at hcheck
          obtain ⟨hnl, hc⟩ := hcheck
          injection h with h
          injection h with hd hn
          subst hd
          subst hn
          refine ⟨c, ?_, hds, fun x hx => List.mem_takeWhile_imp hx, ?_, hc⟩
          · have hsplit : s.data =
                s.data.takeWhile isNd ++ s.data.dropWhile isNd :=
              (List.takeWhile_append_dropWhile _ _).symm
            rw [(stripPre_eq_some _ _ _).mp h1] at hsplit
            have hr : r = nr.reverse ++ ['_', '_', 'd', 'o', 'w', 'n'] ++ [c] ++ ['s', 'q', 'l'] := by
              have := congrArg List.reverse ((stripPre_eq_some _ _ _).mp h2)
              rw [List.reverse_reverse] at this
              rw [this, (stripPre_eq_some _ _ _).mp h3]
              simp
            rw [hr] at hsplit
            exact hsplit.trans (by simp)
          · simp [hnl]

theorem downCaptures_of_pat {s : String} {d n : List Char} {c : Char}
    (heq : s.data = d ++ ['_', '_'] ++ n ++ ['_', '_', 'd', 'o', 'w', 'n'] ++ [c] ++ ['s', 'q', 'l'])
    (hd : d ≠ []) (hdig : ∀ x ∈ d, isNd x = true) (hnl : '\n' ∉ n)
    (hc : c ≠ '\n') : downCaptures s = some (d, n) := by
  have hform : s.data =
      d ++ '_' :: '_' :: (n ++ ['_', '_', 'd', 'o', 'w', 'n'] ++ [c] ++ ['s', 'q', 'l']) := by
    rw [heq]
    simp
  have hsplit := takeWhile_all_append (p := isNd) d
    ('_' :: (n ++ ['_', '_', 'd', 'o', 'w', 'n'] ++ [c] ++ ['s', 'q', 'l'])) '_' hdig (by decide)
  rw [← hform] at hsplit
  have hstrip1 : stripPre ['_', '_'] (s.data.dropWhile isNd) =
      some (n ++ ['_', '_', 'd', 'o', 'w', 'n'] ++ [c] ++ ['s', 'q', 'l']) :=
    (stripPre_eq_some _ _ _).mpr (by rw [hsplit.2]; rfl)
  have hrev : (n ++ ['_', '_', 'd', 'o', 'w', 'n'] ++ [c] ++ ['s', 'q', 'l']).reverse =
      'l' :: 'q' :: 's' :: c :: 'n' :: 'w' :: 'o' :: 'd' :: '_' :: '_' :: n.reverse := by
    simp
  have hstrip2 : stripPre ['l', 'q', 's']
      ((n ++ ['_', '_', 'd', 'o', 'w', 'n'] ++ [c] ++ ['s', 'q', 'l']).reverse) =
      some (c :: 'n' :: 'w' :: 'o' :: 'd' :: '_' :: '_' :: n.reverse) :=
    (stripPre_eq_some _ _ _).mpr (by rw [hrev]; rfl)
  have hstrip3 : stripPre ['n', 'w', 'o', 'd', '_', '_']
      ('n' :: 'w' :: 'o' :: 'd' :: '_' :: '_' :: n.reverse) = some n.reverse :=
    (stripPre_eq_some _ _ _).mpr rfl
  unfold downCaptures
  rw [hsplit.1]
  rw [if_neg hd, hstrip1]
  dsimp only
  rw [hstrip2]
  dsimp only
  rw [hstrip3]
  dsimp only
  rw [if_neg (by
    push_neg
    refine ⟨by simp [hnl], hc⟩)]
  simp

/-- Claim C7 as stated is FALSE on the source: the source regex leaves the
dot before `sql` unescaped, so the filename `1__a__upxsql` — which does
NOT match the claimed pattern `^(\d+)__(.+)__up\.sql$` with a literal dot
— is nevertheless classified as an up change-set file (version 1, name
`a`). -/
theorem up_regex_escaped_dot_counterexample :
    ParsedName.parse "1__a__upxsql" = .ok (some (.up ⟨1, "a"⟩))
    ∧ ¬ UpPatClaimed "1__a__upxsql" := by
  constructor
  · rfl
  · rintro ⟨d, n, heq, -, -, -, -⟩
    have hmem : ('.' : Char) ∈ "1__a__upxsql".data := by
      rw [heq]
      simp
    revert hmem
    decide

/-- Claim C7 amended: classification keys on the basename only and on the
SOURCE regexes, whose dot before `sql` is unescaped (any non-newline
character) and whose `\d` is the Unicode decimal-digit class `isNd`: a
filename is captured as an up change-set file exactly when it matches
`^(\d+)__(.+)__up.sql$` (`UpPatCode`), as a down file exactly when it
matches `^(\d+)__(.*)__down.sql$` (`DownPatCode`, empty name allowed);
no filename matches both, and a filename matching neither is ignored
without producing an error.  (A match whose version run contains a
non-ASCII digit afterwards PANICS in `parse().unwrap()` — `parseI32`
rejects it — cf. the C6 evidence; the witness exhibits this on
`٥__a__up.sql`.) -/
theorem parse_classification (s : String) :
    ((upCaptures s).isSome ↔ UpPatCode s)
    ∧ ((downCaptures s).isSome ↔ DownPatCode s)
    ∧ ¬ (UpPatCode s ∧ DownPatCode s)
    ∧ (upCaptures s = none → downCaptures s = none → ParsedName.parse s = .ok none) := by
  refine ⟨⟨?_, ?_⟩, ⟨?_, ?_⟩, ?_, ?_⟩
  · intro h
    rw [Option.isSome_iff_exists] at h
    obtain ⟨⟨d, n⟩, hdn⟩ := h
    obtain ⟨c, heq, hd, hdig, hn, hnl, hc⟩ := upCaptures_some hdn
    exact ⟨d, n, c, heq, hd, hdig, hn, hnl, hc⟩
  · rintro ⟨d, n, c, heq, hd, hdig, hn, hnl, hc⟩
    rw [upCaptures_of_pat heq hd hdig hn hnl hc]
    rfl
  · intro h
    rw [Option.isSome_iff_exists] at h
    obtain ⟨⟨d, n⟩, hdn⟩ := h
    obtain ⟨c, heq, hd, hdig, hnl, hc⟩ := downCaptures_some hdn
    exact ⟨d, n, c, heq, hd, hdig, hnl, hc⟩
  · rintro ⟨d, n, c, heq, hd, hdig, hnl, hc⟩
    rw [downCaptures_of_pat heq hd hdig hnl hc]
    rfl
  · rintro ⟨⟨d1, n1, c1, h1, -⟩, ⟨d2, n2, c2, h2, -⟩⟩
    have h12 := congrArg List.reverse (h1.symm.trans h2)
    simp [List.reverse_append] at h12
  · intro hup hdown
    unfold ParsedName.parse
    rw [hup, hdown]

/-- Witness for `parse_classification`: `README.md` matches neither regex
and is ignored without error; `1__a__up.sql` is classified as an up file
and satisfies the declarative pattern; and `٥__a__up.sql` (ARABIC-INDIC
DIGIT FIVE, a Unicode `\d` match) is also captured as an up file — after
which the version parse panics, matching the source's
`parse().unwrap()`. -/
theorem parse_classification_witness :
    upCaptures "README.md" = none ∧ downCaptures "README.md" = none
    ∧ ParsedName.parse "README.md" = .ok none
    ∧ UpPatCode "1__a__up.sql"
    ∧ UpPatCode "٥__a__up.sql"
    ∧ ParsedName.parse "٥__a__up.sql" = .panicked :=
  ⟨rfl, rfl, (parse_classification "README.md").2.2.2 rfl rfl,
    (parse_classification "1__a__up.sql").1.mp (by rfl),
    (parse_classification "٥__a__up.sql").1.mp (by rfl),
    rfl⟩

/-! ### Merge of up and down maps (load) -/

theorem find?_eraseP_ne {k k' : Int} (h : k ≠ k') :
    ∀ l : List (Int × ChangeSetVersionName × String),
      (l.eraseP (fun x => x.1 == k')).find? (fun x => x.1 == k) =
        l.find? (fun x => x.1 == k)
  | [] => rfl
  | p :: t => by
    by_cases hp : p.1 = k'
    · have h1 : (p.1 == k') = true := by simp [hp]
      have h2 : (p.1 == k) = false := by
        rw [beq_eq_false_iff_ne]
        rw [hp]
        exact fun hh => h hh.symm
      simp [List.eraseP_cons, List.find?_cons, h1, h2]
    · have h1 : (p.1 == k') = false := by simp [hp]
      simp only [List.eraseP_cons, h1, cond_false, List.find?_cons]
      cases hpk : (p.1 == k) with
      | true => simp
      | false => simpa using find?_eraseP_ne h t

theorem mergeGo_eq_map : ∀ ups downs : List (Int × ChangeSetVersionName × String),
    (ups.map (fun p => p.1)).Nodup →
    mergeGo ups downs = ups.map (fun p =>
      ⟨p.2.1, p.2.2, (downs.find? (fun x => x.1 == p.1)).map (fun x => x.2.2)⟩)
  | [], _, _ => rfl
  | (k, nm, usql) :: rest, downs, hnd => by
    rw [List.map_cons] at hnd
    obtain ⟨hk, hnd1⟩ := List.nodup_cons.mp hnd
    unfold mergeGo
    cases hf : downs.find? (fun x => x.1 == k) with
    | some p0 =>
      dsimp only
      rw [List.map_cons]
      congr 1
      · simp [hf]
      · rw [mergeGo_eq_map rest _ hnd1]
        apply List.map_congr_left
        intro q hq
        have hne : q.1 ≠ k := by
          intro hh
          apply hk
          have hqm : q.1 ∈ rest.map (fun p => p.1) := List.mem_map_of_mem _ hq
          rw [hh] at hqm
          exact hqm
        rw [find?_eraseP_ne hne downs]
    | none =>
      dsimp only
      rw [List.map_cons]
      congr 1
      · simp [hf]
      · exact mergeGo_eq_map rest downs hnd1

/-- Claim C8: for maps of parsed up and down entries (keys unique, each
entry keyed by its own version — as `load` builds them), the merged and
sorted collection has exactly one `ChangeSet` per up entry, carrying the
same-version down SQL when present and no down SQL otherwise; down-only
versions contribute nothing (membership is exhausted by the up entries,
and the multiset of versions equals the up keys), and the result is
sorted strictly ascending by `VersionedName` order. -/
theorem load_merge_behavior (ups downs : List (Int × ChangeSetVersionName × String))
    (hnd : (ups.map (fun p => p.1)).Nodup)
    (hkey : ∀ p ∈ ups, p.2.1.version = p.1) :
    (∀ c : ChangeSet, c ∈ loadMerge ups downs ↔ ∃ p ∈ ups,
      c = ⟨p.2.1, p.2.2, (downs.find? (fun x => x.1 == p.1)).map (fun x => x.2.2)⟩)
    ∧ (loadMerge ups downs).length = ups.length
    ∧ ((loadMerge ups downs).map (fun c => c.name.version)).Perm
        (ups.map (fun p => p.1))
    ∧ List.Pairwise (fun a b => ChangeSetVersionName.ltb a.name b.name = true)
        (loadMerge ups downs) := by
  have hm := mergeGo_eq_map ups downs hnd
  have hperm := sortLe_perm ChangeSet.leb (mergeGo ups downs)
  have hvers : ((loadMerge ups downs).map (fun c => c.name.version)).Perm
      (ups.map (fun p => p.1)) := by
    have h1 := hperm.map (fun c => c.name.version)
    unfold loadMerge
    refine h1.trans ?_
    rw [hm, List.map_map]
    have : ∀ p ∈ ups,
        ((fun c : ChangeSet => c.name.version) ∘ (fun p =>
          (⟨p.2.1, p.2.2, (downs.find? (fun x => x.1 == p.1)).map (fun x => x.2.2)⟩ :
            ChangeSet))) p = p.1 := by
      intro p hp
      exact hkey p hp
    rw [List.map_congr_left this]
  refine ⟨?_, ?_, hvers, ?_⟩
  · intro c
    unfold loadMerge
    rw [hperm.mem_iff, hm, List.mem_map]
    constructor
    · rintro ⟨p, hp, hpe⟩
      exact ⟨p, hp, hpe.symm⟩
    · rintro ⟨p, hp, hpe⟩
      exact ⟨p, hp, hpe.symm⟩
  · unfold loadMerge
    rw [hperm.length_eq, hm, List.length_map]
  · have hsorted := @sortLe_pairwise ChangeSet ChangeSet.leb
      (fun a b c h1 h2 => csLeb_trans h1 h2) csLeb_total (mergeGo ups downs)
    have hnodup : ((loadMerge ups downs).map (fun c => c.name.version)).Nodup :=
      hvers.nodup_iff.mpr hnd
    have hne : List.Pairwise (fun a b : ChangeSet => a.name.version ≠ b.name.version)
        (loadMerge ups downs) := List.pairwise_map.mp hnodup
    have hleb : List.Pairwise (fun a b : ChangeSet => ChangeSet.leb a b = true)
        (loadMerge ups downs) := hsorted
    have := hleb.and hne
    refine this.imp ?_
    rintro a b ⟨h1, h2⟩
    have hlt : ChangeSet.ltb a b = true := by
      rcases csLtb_trichot a b with h | h | h
      · exact h
      · unfold ChangeSet.leb at h1
        rw [h] at h1
        simp at h1
      · exact absurd (congrArg (fun c : ChangeSet => c.name.version) h) h2
    rw [csLtb_iff] at hlt
    rcases hlt with h | ⟨hn, -⟩
    · exact h
    · exact absurd (congrArg ChangeSetVersionName.version hn) h2

/-- Witness for `load_merge_behavior`: two up entries (listed out of
order) and one matching down entry; hypotheses discharged by evaluation. -/
theorem load_merge_behavior_witness :
    (loadMerge [(2, ⟨2, "b"⟩, "u2"), (1, ⟨1, "a"⟩, "u1")] [(1, ⟨1, "a"⟩, "d1")]).length = 2
    ∧ (⟨⟨1, "a"⟩, "u1", some "d1"⟩ : ChangeSet) ∈
        loadMerge [(2, ⟨2, "b"⟩, "u2"), (1, ⟨1, "a"⟩, "u1")] [(1, ⟨1, "a"⟩, "d1")] :=
  ⟨(load_merge_behavior [(2, ⟨2, "b"⟩, "u2"), (1, ⟨1, "a"⟩, "u1")] [(1, ⟨1, "a"⟩, "d1")]
      (by decide) (by decide)).2.1,
    ((load_merge_behavior [(2, ⟨2, "b"⟩, "u2"), (1, ⟨1, "a"⟩, "u1")] [(1, ⟨1, "a"⟩, "d1")]
      (by decide) (by decide)).1 ⟨⟨1, "a"⟩, "u1", some "d1"⟩).mpr
      ⟨(1, ⟨1, "a"⟩, "u1"), by decide, by decide⟩⟩

/-! ### Migration engine: migrate -/

theorem calc_diff_ok_shape {lc ap plan : MigrationChangeSets}
    (h : lc.calc_diff ap = .ok plan) :
    plan = ⟨lc.group_name, lc.change_sets.drop ap.change_sets.length⟩ := by
  unfold MigrationChangeSets.calc_diff at h
  cases hg : calcDiffGo (lc.change_sets.zip ap.change_sets) with
  | some e => rw [hg] at h; cases h
  | none =>
    rw [hg] at h
    dsimp only at h
    split_ifs at h with hlt
    exact (Except.ok.inj h).symm

theorem applyList_ok_shape {σ : Type} (exec : String → σ → Option σ) (g : String) :
    ∀ (l : List ChangeSet) (db db1 : Db σ),
      applyList exec g db l = .ok db1 →
      db1.tracking = db.tracking ++ l.map (mkRow g) ∧
      execAllUps exec db.schema l = some db1.schema
  | [], db, db1, h => by
    injection h with h
    subst h
    simp [execAllUps]
  | c :: rest, db, db1, h => by
    unfold applyList at h
    cases hm : migrate_one exec g db c with
    | error e => rw [hm] at h; cases h
    | ok db2 =>
      rw [hm] at h
      dsimp only at h
      have ih := applyList_ok_shape exec g rest db2 db1 h
      unfold migrate_one at hm
      cases hx : exec c.up_sql db.schema with
      | none => rw [hx] at hm; cases hm
      | some sch =>
        rw [hx] at hm
        dsimp only at hm
        split_ifs at hm with hdup
        have hm2 := Except.ok.inj hm
        subst hm2
        constructor
        · rw [ih.1]
          simp [mkRow]
        · unfold execAllUps
          rw [hx]
          exact ih.2

/-- Claim C3: `migrate` is one transaction.  If the call returns an error
the visible database (schema and tracking table) is exactly the state
before the call — no change set applied earlier within the call survives.
On success the applied list is the computed plan (the local suffix beyond
the applied history), capped by `count` when given; each applied change
set contributes its `batch_execute(up_sql)` to the schema, in plan order,
and appends the tracking row `(group, version, name, up_sql, down_sql)`;
and a version-sorted local collection yields a version-sorted applied
list (ascending order). -/
theorem migrate_transactional {σ : Type} (exec : String → σ → Option σ)
    (db : Db σ) (cs : MigrationChangeSets) (count : Option Nat) :
    (∀ (db1 : Db σ) (e : MigrationErrorKind),
      Client.migrate exec db cs count = .ok (db1, some e) → db1 = db)
    ∧ (∀ db1 : Db σ, Client.migrate exec db cs count = .ok (db1, none) →
      ∃ plan : MigrationChangeSets,
        cs.calc_diff (load_migration_set db cs.group_name) = .ok plan ∧
        plan.change_sets = cs.change_sets.drop
          (load_migration_set db cs.group_name).change_sets.length ∧
        ∃ applyL : List ChangeSet,
          ((count = none ∧ applyL = plan.change_sets) ∨
            (∃ n, count = some n ∧ n ≤ plan.change_sets.length ∧
              applyL = plan.change_sets.take n)) ∧
          db1.tracking = db.tracking ++ applyL.map (mkRow cs.group_name) ∧
          execAllUps exec db.schema applyL = some db1.schema ∧
          (List.Pairwise (fun a b => ChangeSetVersionName.ltb a.name b.name = true)
              cs.change_sets →
            List.Pairwise (fun a b => ChangeSetVersionName.ltb a.name b.name = true)
              applyL)) := by
  constructor
  · intro db1 e h
    unfold Client.migrate at h
    cases hm : migrate_postgres exec db cs count with
    | panicked => rw [hm] at h; cases h
    | ok r =>
      rw [hm] at h
      cases r with
      | error e2 =>
        dsimp only at h
        injection h with h
        rw [Prod.mk.injEq] at h
        exact h.1.symm
      | ok db2 =>
        dsimp only at h
        injection h with h
        rw [Prod.mk.injEq] at h
        cases h.2
  · intro db1 h
    unfold Client.migrate at h
    cases hm : migrate_postgres exec db cs count with
    | panicked => rw [hm] at h; cases h
    | ok r =>
      rw [hm] at h
      cases r with
      | error e2 =>
        dsimp only at h
        injection h with h
        rw [Prod.mk.injEq] at h
        cases h.2
      | ok db2 =>
        dsimp only at h
        injection h with h
        rw [Prod.mk.injEq] at h
        obtain ⟨h1, -⟩ := h
        subst h1
        unfold migrate_postgres at hm
        dsimp only at hm
        cases hd : cs.calc_diff (load_migration_set db cs.group_name) with
        | error e =>
          rw [hd] at hm
          simp at hm
        | ok diff =>
          rw [hd] at hm
          dsimp only at hm
          have hshape := calc_diff_ok_shape hd
          refine ⟨diff, rfl, by rw [hshape], ?_⟩
          cases count with
          | none =>
            dsimp only at hm
            injection hm with hm
            obtain ⟨ht, hs⟩ := applyList_ok_shape exec cs.group_name diff.change_sets db db2 hm
            refine ⟨diff.change_sets, Or.inl ⟨rfl, rfl⟩, ht, hs, ?_⟩
            intro hp
            have hsub : diff.change_sets.Sublist cs.change_sets := by
              rw [hshape]
              exact List.drop_sublist _ _
            exact hp.sublist hsub
          | some n =>
            dsimp only at hm
            cases hsn : diff.subsetTo n with
            | panicked => rw [hsn] at hm; cases hm
            | ok sub =>
              rw [hsn] at hm
              dsimp only at hm
              injection hm with hm
              unfold MigrationChangeSets.subsetTo at hsn
              split_ifs at hsn with hle
              have hsn2 := (PResult.ok.inj hsn).symm
              subst hsn2
              obtain ⟨ht, hs⟩ := applyList_ok_shape exec cs.group_name _ db db2 hm
              refine ⟨diff.change_sets.take n, Or.inr ⟨n, rfl, hle, rfl⟩, ht, hs, ?_⟩
              intro hp
              have hsub : (diff.change_sets.take n).Sublist cs.change_sets := by
                rw [hshape]
                exact (List.take_sublist _ _).trans (List.drop_sublist _ _)
              exact hp.sublist hsub

/-- Witness for `migrate_transactional`: one change set applied to an
empty database with a logging executor; the success hypothesis is
discharged by evaluation. -/
theorem migrate_transactional_witness :
    ∃ plan : MigrationChangeSets,
      MigrationChangeSets.calc_diff ⟨"g", [⟨⟨1, "a"⟩, "cu", none⟩]⟩
        (load_migration_set (Db.mk ([] : List String) []) "g") = .ok plan ∧
      plan.change_sets = (⟨"g", [⟨⟨1, "a"⟩, "cu", none⟩]⟩ :
        MigrationChangeSets).change_sets.drop
          (load_migration_set (Db.mk ([] : List String) []) "g").change_sets.length ∧
      ∃ applyL : List ChangeSet,
        (((none : Option Nat) = none ∧ applyL = plan.change_sets) ∨
          (∃ n, (none : Option Nat) = some n ∧ n ≤ plan.change_sets.length ∧
            applyL = plan.change_sets.take n)) ∧
        (Db.mk ["cu"] [⟨"g", 1, "a", "cu", none⟩]).tracking =
          (Db.mk ([] : List String) []).tracking ++ applyL.map (mkRow "g") ∧
        execAllUps (fun sql st => some (st ++ [sql]))
          (Db.mk ([] : List String) []).schema applyL =
          some (Db.mk ["cu"] [⟨"g", 1, "a", "cu", none⟩]).schema ∧
        (List.Pairwise (fun a b => ChangeSetVersionName.ltb a.name b.name = true)
            (⟨"g", [⟨⟨1, "a"⟩, "cu", none⟩]⟩ : MigrationChangeSets).change_sets →
          List.Pairwise (fun a b => ChangeSetVersionName.ltb a.name b.name = true)
            applyL) :=
  (migrate_transactional (fun sql st => some (st ++ [sql])) (Db.mk [] [])
    ⟨"g", [⟨⟨1, "a"⟩, "cu", none⟩]⟩ none).2
    (Db.mk ["cu"] [⟨"g", 1, "a", "cu", none⟩]) (by decide)

/-! ### Migration engine: rollback -/

/-- Claim C4 is contradicted by the source (code bug evidence): the
delete statement in `rollback_one`,
`DELETE FROM db_migration VALUES WHERE group_name = $1 AND version = $2`
(tokio_postgres.rs line 197), is invalid PostgreSQL — `VALUES` is a fully
reserved keyword and cannot stand as a bare table alias — so every
`rollback_one` call fails with a `PostgresError` before deleting its
tracking row and before any down SQL is batch-executed.  Consequently any
rollback whose count is at least 1 (and within the applied length, so the
count check does not fire first) errors, leaves the transaction
uncommitted and the database unchanged, and never exhibits the claimed
delete-then-revert behaviour.  The repo's own `test_apply` expects
`rollback_postgres` to succeed and shrink `db_migration`, so the code
contradicts its own tests. -/
theorem rollback_one_always_errors :
    (∀ (σ : Type) (exec : String → σ → Option σ) (g : String) (db : Db σ)
      (c : ChangeSet), rollback_one exec g db c = .error .PostgresError)
    ∧ (∀ (σ : Type) (exec : String → σ → Option σ) (db : Db σ) (g : String)
      (n : Nat), 1 ≤ n → n ≤ (load_migration_set db g).change_sets.length →
      Client.rollback exec db g (some n) = (db, some .PostgresError)) := by
  constructor
  · intro σ exec g db c
    rfl
  · intro σ exec db g n h1 h2
    have hr : rollback_postgres exec db g (some n) = .error .PostgresError := by
      unfold rollback_postgres
      dsimp only
      rw [Option.getD_some]
      rw [if_neg (by omega)]
      cases hl : (load_migration_set db g).change_sets.reverse.take n with
      | nil =>
        exfalso
        have hlen := congrArg List.length hl
        simp only [List.length_take, List.length_reverse, List.length_nil] at hlen
        omega
      | cons c rest => rfl
    unfold Client.rollback
    rw [hr]

/-- Witness for `rollback_one_always_errors`: a one-row tracking table
rolled back with count 1; the hypotheses are discharged by evaluation and
the call returns the unchanged database with a `PostgresError`. -/
theorem rollback_one_always_errors_witness :
    1 ≤ (load_migration_set
        (Db.mk ([] : List String) [⟨"g", 1, "a", "u1", some "d1"⟩]) "g").change_sets.length
    ∧ Client.rollback (fun sql st => some (st ++ [sql]))
        (Db.mk ([] : List String) [⟨"g", 1, "a", "u1", some "d1"⟩]) "g" (some 1) =
      (Db.mk ([] : List String) [⟨"g", 1, "a", "u1", some "d1"⟩], some .PostgresError) :=
  ⟨by decide,
    rollback_one_always_errors.2 (List String) (fun sql st => some (st ++ [sql]))
      (Db.mk ([] : List String) [⟨"g", 1, "a", "u1", some "d1"⟩]) "g" 1
      (by decide) (by decide)⟩

/-! ### Migration engine: update_rollback_sql -/

theorem forall2_trans {α : Type} {R : α → α → Prop}
    (htrans : ∀ a b c, R a b → R b c → R a c) :
    ∀ {l1 l2 l3 : List α}, List.Forall₂ R l1 l2 → List.Forall₂ R l2 l3 →
      List.Forall₂ R l1 l3
  | [], [], [], _, _ => List.Forall₂.nil
  | _ :: _, _ :: _, _ :: _, List.Forall₂.cons h1 t1, List.Forall₂.cons h2 t2 =>
    List.Forall₂.cons (htrans _ _ _ h1 h2) (forall2_trans htrans t1 t2)

theorem updateGo_ok_schema {σ : Type} (g : String) :
    ∀ (ps : List (ChangeSet × ChangeSet)) (db db1 : Db σ),
      updateGo g db ps = .ok db1 → db1.schema = db.schema
  | [], db, db1, h => by
    injection h with h
    subst h
    rfl
  | (l, a) :: rest, db, db1, h => by
    unfold updateGo at h
    split_ifs at h with h1 h2
    · have ih := updateGo_ok_schema g rest (update_rollback_sql_one g db l) db1 h
      rw [ih]
      rfl
    · exact updateGo_ok_schema g rest db db1 h

theorem updateGo_ok_forall2 {σ : Type} (g : String) :
    ∀ (ps : List (ChangeSet × ChangeSet)) (db db1 : Db σ),
      updateGo g db ps = .ok db1 →
      List.Forall₂ (fun r r2 : TrackingRow => r2.group_name = r.group_name ∧
        r2.version = r.version ∧ r2.name = r.name ∧ r2.up_sql = r.up_sql)
        db.tracking db1.tracking
  | [], db, db1, h => by
    injection h with h
    subst h
    exact List.forall₂_same.mpr (fun r hr => ⟨rfl, rfl, rfl, rfl⟩)
  | (l, a) :: rest, db, db1, h => by
    unfold updateGo at h
    split_ifs at h with h1 h2
    · have ih := updateGo_ok_forall2 g rest (update_rollback_sql_one g db l) db1 h
      have step : List.Forall₂ (fun r r2 : TrackingRow => r2.group_name = r.group_name ∧
          r2.version = r.version ∧ r2.name = r.name ∧ r2.up_sql = r.up_sql)
          db.tracking (update_rollback_sql_one g db l).tracking := by
        unfold update_rollback_sql_one
        dsimp only
        rw [List.forall₂_map_right_iff]
        apply List.forall₂_same.mpr
        intro r hr
        split_ifs with hcond
        · exact ⟨rfl, rfl, rfl, rfl⟩
        · exact ⟨rfl, rfl, rfl, rfl⟩
      refine forall2_trans ?_ step ih
      rintro x y z ⟨e1, e2, e3, e4⟩ ⟨f1, f2, f3, f4⟩
      exact ⟨f1.trans e1, f2.trans e2, f3.trans e3, f4.trans e4⟩
    · exact updateGo_ok_forall2 g rest db db1 h

theorem zip_map_snd_take {α β : Type} :
    ∀ (l1 : List α) (l2 : List β),
      (l1.zip l2).map Prod.snd = l2.take l1.length
  | [], l2 => by simp
  | x :: xs, [] => by simp
  | x :: xs, y :: ys => by
    simp only [List.zip_cons_cons, List.map_cons, List.length_cons, List.take_succ_cons]
    rw [zip_map_snd_take xs ys]

theorem updateGo_ok_tracking {σ : Type} (g : String) :
    ∀ (ps : List (ChangeSet × ChangeSet)) (sch : σ) (tr : List TrackingRow)
      (db1 : Db σ),
      (ps.map (fun p => p.2.name.version)).Nodup →
      updateGo g ⟨sch, tr⟩ ps = .ok db1 →
      db1 = ⟨sch, tr.map (fun r =>
        if r.group_name == g then
          match ps.find? (fun p => p.2.name.version == r.version &&
              !(p.1.down_sql == p.2.down_sql)) with
          | some p => ⟨r.group_name, r.version, r.name, r.up_sql, p.1.down_sql⟩
          | none => r
        else r)⟩
  | [], sch, tr, db1, _, h => by
    injection h with h
    subst h
    have hpt : ∀ r ∈ tr, (if r.group_name == g then
        match ([] : List (ChangeSet × ChangeSet)).find?
            (fun p => p.2.name.version == r.version &&
              !(p.1.down_sql == p.2.down_sql)) with
        | some p => (⟨r.group_name, r.version, r.name, r.up_sql, p.1.down_sql⟩ : TrackingRow)
        | none => r
      else r) = r := by
      intro r hr
      split_ifs with hg
      · rfl
      · rfl
    rw [List.map_congr_left hpt, List.map_id']
  | (l, a) :: rest, sch, tr, db1, hnd, h => by
    unfold updateGo at h
    rw [List.map_cons, List.nodup_cons] at hnd
    obtain ⟨hmem, hnd1⟩ := hnd
    split_ifs at h with h1 h2
    · have hname : l.name = a.name := not_not.mp h1
      have ih := updateGo_ok_tracking g rest
        (update_rollback_sql_one g ⟨sch, tr⟩ l).schema
        (update_rollback_sql_one g ⟨sch, tr⟩ l).tracking db1 hnd1 h
      rw [ih]
      unfold update_rollback_sql_one
      dsimp only
      congr 1
      rw [List.map_map]
      apply List.map_congr_left
      intro r hr
      dsimp only [Function.comp]
      by_cases hg : (r.group_name == g) = true
      · by_cases hv : (r.version == l.name.version) = true
        · have hrv : r.version = a.name.version := by
            rw [← hname]
            exact beq_iff_eq.mp hv
          have hur : (if (r.group_name == g && r.version == l.name.version) = true then
              (⟨r.group_name, r.version, r.name, r.up_sql, l.down_sql⟩ : TrackingRow)
              else r) = ⟨r.group_name, r.version, r.name, r.up_sql, l.down_sql⟩ :=
            if_pos (by rw [hg, hv]; rfl)
          rw [hur]
          dsimp only
          have hfrest : rest.find? (fun p => p.2.name.version == r.version &&
              !(p.1.down_sql == p.2.down_sql)) = none := by
            rw [List.find?_eq_none]
            intro p hp
            have hpne : (p.2.name.version == r.version) = false := by
              rw [beq_eq_false_iff_ne, hrv]
              intro he
              exact hmem (by
                rw [← he]
                exact List.mem_map_of_mem _ hp)
            simp [hpne]
          have hfcons : ((l, a) :: rest).find? (fun p => p.2.name.version == r.version &&
              !(p.1.down_sql == p.2.down_sql)) = some (l, a) := by
            rw [List.find?_cons]
            have hpa : (a.name.version == r.version && !(l.down_sql == a.down_sql)) = true := by
              rw [Bool.and_eq_true]
              refine ⟨by rw [beq_iff_eq]; exact hrv.symm, ?_⟩
              rw [Bool.not_eq_true', beq_eq_false_iff_ne]
              exact h2
            dsimp only
            rw [hpa]
          rw [if_pos hg, hfrest, if_pos hg, hfcons]
        · have hva : (a.name.version == r.version) = false := by
            rw [beq_eq_false_iff_ne]
            intro he
            apply hv
            rw [beq_iff_eq, hname, ← he]
          have hur : (if (r.group_name == g && r.version == l.name.version) = true then
              (⟨r.group_name, r.version, r.name, r.up_sql, l.down_sql⟩ : TrackingRow)
              else r) = r :=
            if_neg (by
              rw [hg, Bool.true_and]
              exact hv)
          rw [hur]
          rw [if_pos hg, if_pos hg]
          have hfc : ((l, a) :: rest).find? (fun p => p.2.name.version == r.version &&
              !(p.1.down_sql == p.2.down_sql)) =
              rest.find? (fun p => p.2.name.version == r.version &&
                !(p.1.down_sql == p.2.down_sql)) := by
            rw [List.find?_cons]
            dsimp only
            rw [hva]
            rfl
          rw [hfc]
      · rw [Bool.not_eq_true] at hg
        have hur : (if (r.group_name == g && r.version == l.name.version) = true then
            (⟨r.group_name, r.version, r.name, r.up_sql, l.down_sql⟩ : TrackingRow)
            else r) = r :=
          if_neg (by
            rw [hg, Bool.false_and]
            simp)
        rw [hur]
        rw [if_neg (by rw [hg]; simp), if_neg (by rw [hg]; simp)]
    · have hdeq : l.down_sql = a.down_sql := not_not.mp h2
      have ih := updateGo_ok_tracking g rest sch tr db1 hnd1 h
      rw [ih]
      congr 1
      apply List.map_congr_left
      intro r hr
      by_cases hg : (r.group_name == g) = true
      · rw [if_pos hg, if_pos hg]
        have hfc : ((l, a) :: rest).find? (fun p => p.2.name.version == r.version &&
            !(p.1.down_sql == p.2.down_sql)) =
            rest.find? (fun p => p.2.name.version == r.version &&
              !(p.1.down_sql == p.2.down_sql)) := by
          rw [List.find?_cons]
          dsimp only
          have hnd2 : (!(l.down_sql == a.down_sql)) = false := by
            rw [show (l.down_sql == a.down_sql) = true from beq_iff_eq.mpr hdeq]
            rfl
          rw [hnd2, Bool.and_false]
        rw [hfc]
      · rw [Bool.not_eq_true] at hg
        rw [if_neg (by rw [hg]; simp), if_neg (by rw [hg]; simp)]

/-- Claim C5: `update_rollback_sql` walks local and applied in lock-step
up to the shorter length; a `(version, name)` divergence aborts the whole
transaction so no partial update becomes visible; the target schema is
never touched (no up or down SQL is executed); row identity and up SQL
are never altered (`Forall₂` pointwise preservation); and on success the
stored down SQL is set to the local value exactly at the lock-step
positions whose down SQL differs (stated under the primary-key invariant
that applied versions are distinct). -/
theorem update_rollback_sql_behavior {σ : Type} (db : Db σ)
    (cs : MigrationChangeSets) :
    (∀ (db1 : Db σ) (e : MigrationErrorKind),
      Client.update_rollback_sql db cs = (db1, some e) → db1 = db)
    ∧ (∀ (db1 : Db σ) (e? : Option MigrationErrorKind),
      Client.update_rollback_sql db cs = (db1, e?) → db1.schema = db.schema)
    ∧ (∀ db1 : Db σ, Client.update_rollback_sql db cs = (db1, none) →
      List.Forall₂ (fun r r2 : TrackingRow => r2.group_name = r.group_name ∧
        r2.version = r.version ∧ r2.name = r.name ∧ r2.up_sql = r.up_sql)
        db.tracking db1.tracking)
    ∧ (((load_migration_set db cs.group_name).change_sets.map
          (fun c => c.name.version)).Nodup →
      ∀ db1 : Db σ, Client.update_rollback_sql db cs = (db1, none) →
      db1.tracking = db.tracking.map (fun r =>
        if r.group_name == cs.group_name then
          match (cs.change_sets.zip
              (load_migration_set db cs.group_name).change_sets).find?
              (fun p => p.2.name.version == r.version &&
                !(p.1.down_sql == p.2.down_sql)) with
          | some p => ⟨r.group_name, r.version, r.name, r.up_sql, p.1.down_sql⟩
          | none => r
        else r)) := by
  refine ⟨?_, ?_, ?_, ?_⟩
  · intro db1 e h
    unfold Client.update_rollback_sql at h
    cases hu : update_rollback_sql_postgres db cs with
    | ok db2 =>
      rw [hu] at h
      dsimp only at h
      rw [Prod.mk.injEq] at h
      cases h.2
    | error e2 =>
      rw [hu] at h
      dsimp only at h
      rw [Prod.mk.injEq] at h
      exact h.1.symm
  · intro db1 e? h
    unfold Client.update_rollback_sql at h
    cases hu : update_rollback_sql_postgres db cs with
    | ok db2 =>
      rw [hu] at h
      dsimp only at h
      rw [Prod.mk.injEq] at h
      obtain ⟨h1, -⟩ := h
      subst h1
      exact updateGo_ok_schema cs.group_name _ db db2 hu
    | error e2 =>
      rw [hu] at h
      dsimp only at h
      rw [Prod.mk.injEq] at h
      obtain ⟨h1, -⟩ := h
      subst h1
      rfl
  · intro db1 h
    unfold Client.update_rollback_sql at h
    cases hu : update_rollback_sql_postgres db cs with
    | ok db2 =>
      rw [hu] at h
      dsimp only at h
      rw [Prod.mk.injEq] at h
      obtain ⟨h1, -⟩ := h
      subst h1
      exact updateGo_ok_forall2 cs.group_name _ db db2 hu
    | error e2 =>
      rw [hu] at h
      dsimp only at h
      rw [Prod.mk.injEq] at h
      cases h.2
  · intro hnd db1 h
    unfold Client.update_rollback_sql at h
    cases hu : update_rollback_sql_postgres db cs with
    | error e2 =>
      rw [hu] at h
      dsimp only at h
      rw [Prod.mk.injEq] at h
      cases h.2
    | ok db2 =>
      rw [hu] at h
      dsimp only at h
      rw [Prod.mk.injEq] at h
      obtain ⟨h1, -⟩ := h
      subst h1
      have hpnd : ((cs.change_sets.zip
          (load_migration_set db cs.group_name).change_sets).map
          (fun p => p.2.name.version)).Nodup := by
        have he : (cs.change_sets.zip
            (load_migration_set db cs.group_name).change_sets).map
            (fun p => p.2.name.version) =
            ((load_migration_set db cs.group_name).change_sets.map
              (fun c => c.name.version)).take cs.change_sets.length := by
          rw [← List.map_take, ← zip_map_snd_take cs.change_sets
            (load_migration_set db cs.group_name).change_sets, List.map_map]
          rfl
        rw [he]
        exact List.Nodup.sublist (List.take_sublist _ _) hnd
      have hmain := updateGo_ok_tracking cs.group_name
        (cs.change_sets.zip (load_migration_set db cs.group_name).change_sets)
        db.schema db.tracking db2 hpnd hu
      rw [hmain]

/-- Witness for `update_rollback_sql_behavior`: one tracking row whose
stored down SQL `old` differs from the local `new`; the success and
uniqueness hypotheses are discharged by evaluation, and only `down_sql`
changes. -/
theorem update_rollback_sql_behavior_witness :
    (Db.mk (["x"] : List String) [⟨"g", 1, "a", "u1", some "new"⟩]).tracking =
      (Db.mk (["x"] : List String) [⟨"g", 1, "a", "u1", some "old"⟩]).tracking.map (fun r =>
        if r.group_name == "g" then
          match ((⟨"g", [⟨⟨1, "a"⟩, "u1", some "new"⟩]⟩ :
              MigrationChangeSets).change_sets.zip
              (load_migration_set (Db.mk (["x"] : List String)
                [⟨"g", 1, "a", "u1", some "old"⟩]) "g").change_sets).find?
              (fun p => p.2.name.version == r.version &&
                !(p.1.down_sql == p.2.down_sql)) with
          | some p => ⟨r.group_name, r.version, r.name, r.up_sql, p.1.down_sql⟩
          | none => r
        else r) :=
  (update_rollback_sql_behavior
    (Db.mk (["x"] : List String) [⟨"g", 1, "a", "u1", some "old"⟩])
    ⟨"g", [⟨⟨1, "a"⟩, "u1", some "new"⟩]⟩).2.2.2 (by decide)
    (Db.mk (["x"] : List String) [⟨"g", 1, "a", "u1", some "new"⟩]) (by decide)
